import Mathlib

/-!
# Verification of the rs-tftpd TFTP endpoint

A shallow embedding, in Lean 4, of the parts of the rs-tftpd repository that
the verified claims are about:

* the wire codec (`src/packet.rs`, `src/convert.rs`);
* the window buffer (`src/window.rs`);
* the sender and receiver state machines of the per-transfer worker
  (`src/worker.rs`);
* the option negotiator and client-side option application
  (`src/options.rs`, `src/client.rs`);
* the dispatcher's path handling (`src/server.rs`).

Wire buffers are modelled as `List Nat` of byte values; Rust `String`s that
travel on the wire are modelled as their UTF-8 byte lists.  Machine-integer
arithmetic is modelled on `Nat` with explicit `% 2 ^ 16` (u16) and
`< 2 ^ 64` (u64) bounds where the Rust code relies on the width.  Fallible
Rust code returns `Except String`; Rust operations that can panic (slice
indexing with an out-of-range start) are wrapped in `Option`, where `none`
models a panic, so that totality of the deserializer is a theorem rather
than an artifact of the embedding.
-/

namespace Tftpd

/-- `2 ^ 16`, the modulus of Rust `u16` arithmetic. -/
def u16Mod : Nat := 65536

/-- `2 ^ 64`, the modulus of Rust `u64` arithmetic. -/
def u64Mod : Nat := 18446744073709551616

/-- Rust `u8::is_ascii_digit`-style check used by `u64` parsing: byte values
of `'0'`..`'9'` map to their numeric value. -/
def digitVal (b : Nat) : Option Nat :=
  if 48 ≤ b ∧ b ≤ 57 then some (b - 48) else none

/-- Accumulating core of Rust `str::parse::<u64>` over the digit bytes.
Per character Rust first rejects a non-digit (`ParseIntError` display
"invalid digit found in string") and only then checks the
`checked_mul`/`checked_add` overflow ("number too large to fit in target
type"), so a buffer that overflows before its first bad digit reports the
overflow. -/
def parseU64core : List Nat → Nat → Except String Nat
  | [], acc => .ok acc
  | b :: r, acc =>
    match digitVal b with
    | some d =>
      if acc * 10 + d < u64Mod then parseU64core r (acc * 10 + d)
      else .error "number too large to fit in target type"
    | none => .error "invalid digit found in string"

/-- The optional leading `'+'` (byte 43) accepted by `str::parse::<u64>`. -/
def stripPlus : List Nat → List Nat
  | 43 :: r => r
  | s => s

/-- Model of Rust `str::parse::<u64>()` on a UTF-8 byte list, with
`ParseIntError`'s display messages: an empty string is
"cannot parse integer from empty string"; a lone `'+'` (byte 43), a `'-'`
or any other non-digit is "invalid digit found in string"; and exceeding
`u64::MAX` during the digit fold is "number too large to fit in target
type". -/
def parseU64 (s : List Nat) : Except String Nat :=
  if s = [] then .error "cannot parse integer from empty string"
  else
    match stripPlus s with
    | [] => .error "invalid digit found in string"
    | b :: r => parseU64core (b :: r) 0

/-- Decimal digit bytes of a natural number, most significant first; model of
Rust `u64::to_string()` as UTF-8 bytes. -/
def natDigits (n : Nat) : List Nat :=
  if h : n < 10 then [48 + n] else natDigits (n / 10) ++ [48 + n % 10]
decreasing_by exact Nat.div_lt_self (by omega) (by omega)

/-- ASCII lower-casing of one byte: the ASCII fragment of Rust
`str::to_lowercase`.  The full function also lowercases non-ASCII
characters (e.g. the Kelvin sign U+212A becomes `k`), so theorems that
quantify over arbitrary wire pairs restrict option names to ASCII bytes,
where this byte-level map and the char-level Rust function agree; every
serializer-produced name is ASCII. -/
def asciiLower (b : Nat) : Nat :=
  if 65 ≤ b ∧ b ≤ 90 then b + 32 else b

/-- A UTF-8 continuation byte. -/
def utf8Cont (c : Nat) : Bool := 0x80 ≤ c && c ≤ 0xBF

mutual

/-- Validity check of Rust `String::from_utf8` on a byte list (RFC 3629
UTF-8: no overlong forms, no surrogates, at most U+10FFFF).  The second
byte of a 3-byte form is range-restricted after `0xE0` (overlong) and
`0xED` (surrogates); of a 4-byte form after `0xF0` (overlong) and `0xF4`
(above U+10FFFF). -/
def utf8Valid : List Nat → Bool
  | [] => true
  | b :: r =>
    if b ≤ 0x7F then utf8Valid r
    else if b < 0xC2 then false
    else if b ≤ 0xDF then utf8Need1 r
    else if b ≤ 0xEF then
      utf8Need2 (if b = 0xE0 then 0xA0 else 0x80) (if b = 0xED then 0x9F else 0xBF) r
    else if b ≤ 0xF4 then
      utf8Need3 (if b = 0xF0 then 0x90 else 0x80) (if b = 0xF4 then 0x8F else 0xBF) r
    else false

/-- One continuation byte, then a further valid sequence. -/
def utf8Need1 : List Nat → Bool
  | c1 :: r => utf8Cont c1 && utf8Valid r
  | [] => false

/-- A range-restricted byte, one continuation byte, then a valid sequence. -/
def utf8Need2 (lo hi : Nat) : List Nat → Bool
  | c1 :: c2 :: r => (lo ≤ c1 && c1 ≤ hi) && utf8Cont c2 && utf8Valid r
  | _ => false

/-- A range-restricted byte, two continuation bytes, then a valid sequence. -/
def utf8Need3 (lo hi : Nat) : List Nat → Bool
  | c1 :: c2 :: c3 :: r =>
    (lo ≤ c1 && c1 ≤ hi) && utf8Cont c2 && utf8Cont c3 && utf8Valid r
  | _ => false

end

/-- The UTF-8 bytes of an ASCII string literal, for writing wire constants. -/
def strBytes (s : String) : List Nat := s.data.map Char.toNat

/-- Rust slice `buf[start..]`, which panics (`none`) iff `start > buf.len()`. -/
def sliceFrom (buf : List Nat) (start : Nat) : Option (List Nat) :=
  if start ≤ buf.length then some (List.drop start buf) else none

/-! ## `src/convert.rs` — `Convert` -/

/-- `Convert::to_u16`: big-endian `u16` from the first two bytes, or an
error on a short slice (`(buf[0] << 8) + buf[1]`). -/
def toU16 : List Nat → Except String Nat
  | b0 :: b1 :: _ => .ok (b0 * 256 + b1)
  | _ => .error "Error when converting to u16"

/-- `iter().position(|&b| b == 0x00)`: index of the first zero byte. -/
def findZeroIdx : List Nat → Option Nat
  | [] => none
  | b :: r => if b = 0 then some 0 else (findZeroIdx r).map (· + 1)

/-- `Convert::to_string`: scan `buf[start..]` for the first zero byte and
UTF-8-decode the bytes before it, returning the decoded byte string and the
absolute index of the terminator.  The guard is the panic monad for the
slice `buf[start..]`, which panics (`none`) iff `start > buf.len()`. -/
def toStr (buf : List Nat) (start : Nat) : Option (Except String (List Nat × Nat)) :=
  if start ≤ buf.length then
    let d := List.drop start buf
    match findZeroIdx d with
    | some i =>
      let s := d.take i
      some (if utf8Valid s then .ok (s, start + i) else .error "invalid utf-8 sequence")
    | none => some (.error "Invalid string")
  else none

/-! ## `src/options.rs` — `OptionType`, `TransferOption` -/

/-- `OptionType`: the six recognized TFTP option kinds. -/
inductive OptionType where
  | blockSize
  | transferSize
  | timeout
  | timeoutMs
  | windowSize
  | windowWait
deriving DecidableEq, Repr

/-- `OptionType::as_str` as wire bytes. -/
def OptionType.asStr : OptionType → List Nat
  | .blockSize => strBytes "blksize"
  | .transferSize => strBytes "tsize"
  | .timeout => strBytes "timeout"
  | .timeoutMs => strBytes "timeoutms"
  | .windowSize => strBytes "windowsize"
  | .windowWait => strBytes "windowwait"

/-- `OptionType::from_str` on wire bytes. -/
def OptionType.fromStr (s : List Nat) : Option OptionType :=
  if s = strBytes "blksize" then some .blockSize
  else if s = strBytes "tsize" then some .transferSize
  else if s = strBytes "timeout" then some .timeout
  else if s = strBytes "timeoutms" then some .timeoutMs
  else if s = strBytes "windowsize" then some .windowSize
  else if s = strBytes "windowwait" then some .windowWait
  else none

/-- `TransferOption`: an option kind plus its `u64` value. -/
structure TransferOption where
  option : OptionType
  value : Nat
deriving DecidableEq, Repr

/-- `TransferOption::as_bytes`: `name\0value\0` with the value in decimal. -/
def TransferOption.asBytes (o : TransferOption) : List Nat :=
  o.option.asStr ++ [0] ++ natDigits o.value ++ [0]

/-! ## `src/packet.rs` — `Opcode`, `ErrorCode`, `Packet` -/

/-- `Opcode`: the six TFTP opcodes. -/
inductive Opcode where
  | rrq
  | wrq
  | data
  | ack
  | error
  | oack
deriving DecidableEq, Repr

/-- The numeric value of an opcode (`Opcode` is `repr(u16)` with values 1..6). -/
def Opcode.toNat : Opcode → Nat
  | .rrq => 1
  | .wrq => 2
  | .data => 3
  | .ack => 4
  | .error => 5
  | .oack => 6

/-- `Opcode::from_u16`. -/
def Opcode.fromU16 (v : Nat) : Except String Opcode :=
  if v = 1 then .ok .rrq
  else if v = 2 then .ok .wrq
  else if v = 3 then .ok .data
  else if v = 4 then .ok .ack
  else if v = 5 then .ok .error
  else if v = 6 then .ok .oack
  else .error "Invalid opcode"

/-- `Opcode::as_bytes`: the big-endian `u16` image. -/
def Opcode.asBytes (o : Opcode) : List Nat := [0, o.toNat]

/-- `ErrorCode`: the nine TFTP error codes (`repr(u16)`, values 0..8). -/
inductive ErrorCode where
  | notDefined
  | fileNotFound
  | accessViolation
  | diskFull
  | illegalOperation
  | unknownId
  | fileExists
  | noSuchUser
  | refusedOption
deriving DecidableEq, Repr

/-- The numeric value of an error code. -/
def ErrorCode.toNat : ErrorCode → Nat
  | .notDefined => 0
  | .fileNotFound => 1
  | .accessViolation => 2
  | .diskFull => 3
  | .illegalOperation => 4
  | .unknownId => 5
  | .fileExists => 6
  | .noSuchUser => 7
  | .refusedOption => 8

/-- `ErrorCode::from_u16`. -/
def ErrorCode.fromU16 (v : Nat) : Except String ErrorCode :=
  if v = 0 then .ok .notDefined
  else if v = 1 then .ok .fileNotFound
  else if v = 2 then .ok .accessViolation
  else if v = 3 then .ok .diskFull
  else if v = 4 then .ok .illegalOperation
  else if v = 5 then .ok .unknownId
  else if v = 6 then .ok .fileExists
  else if v = 7 then .ok .noSuchUser
  else if v = 8 then .ok .refusedOption
  else .error "Invalid error code"

/-- `ErrorCode::as_bytes`: big-endian `u16` image (all codes are < 256). -/
def ErrorCode.asBytes (c : ErrorCode) : List Nat := [0, c.toNat]

/-- `Packet`: the internal representation of the six TFTP packet kinds.
Strings (`filename`, `mode`, `msg`) are UTF-8 byte lists. -/
inductive Packet where
  | rrq (filename : List Nat) (mode : List Nat) (options : List TransferOption)
  | wrq (filename : List Nat) (mode : List Nat) (options : List TransferOption)
  | data (blockNum : Nat) (payload : List Nat)
  | ack (blockNum : Nat)
  | err (code : ErrorCode) (msg : List Nat)
  | oack (options : List TransferOption)
deriving DecidableEq, Repr

/-- Big-endian bytes of a `u16` (`u16::to_be_bytes`). -/
def be16 (n : Nat) : List Nat := [n / 256 % 256, n % 256]

/-- `serialize_rrq`. -/
def serializeRrq (filename mode : List Nat) (options : List TransferOption) : List Nat :=
  Opcode.rrq.asBytes ++ filename ++ [0] ++ mode ++ [0]
    ++ options.flatMap TransferOption.asBytes

/-- `serialize_wrq`. -/
def serializeWrq (filename mode : List Nat) (options : List TransferOption) : List Nat :=
  Opcode.wrq.asBytes ++ filename ++ [0] ++ mode ++ [0]
    ++ options.flatMap TransferOption.asBytes

/-- `serialize_data`. -/
def serializeData (blockNum : Nat) (payload : List Nat) : List Nat :=
  Opcode.data.asBytes ++ be16 blockNum ++ payload

/-- `serialize_ack`. -/
def serializeAck (blockNum : Nat) : List Nat :=
  Opcode.ack.asBytes ++ be16 blockNum

/-- `serialize_error`. -/
def serializeError (code : ErrorCode) (msg : List Nat) : List Nat :=
  Opcode.error.asBytes ++ code.asBytes ++ msg ++ [0]

/-- `serialize_oack`. -/
def serializeOack (options : List TransferOption) : List Nat :=
  Opcode.oack.asBytes ++ options.flatMap TransferOption.asBytes

/-- `Packet::serialize`.  The Rust function returns `Result` but every arm is
`Ok`, so the model is total. -/
def Packet.serialize : Packet → List Nat
  | .rrq filename mode options => serializeRrq filename mode options
  | .wrq filename mode options => serializeWrq filename mode options
  | .data blockNum payload => serializeData blockNum payload
  | .ack blockNum => serializeAck blockNum
  | .err code msg => serializeError code msg
  | .oack options => serializeOack options

/-- The option-scanning `while zero_index < buf.len() - 1` loop shared
textually by `parse_rq` and `parse_oack`: starting from the terminator
index `zi` of the previously parsed field, repeatedly read a
`name\0value\0` pair; a recognized (case-normalized) name is kept with its
parsed `u64` value, a value that fails to parse aborts the packet with the
`ParseIntError` message (`value.parse()?`), an unrecognized name is
skipped.  The first argument is
recursion fuel: the loop variable `zi` strictly increases, so
`buf.length` fuel always suffices (proved in the deserializer totality
theorem, where `none` — fuel exhaustion or an out-of-range slice — is shown
unreachable). -/
def parseOptsLoop (buf : List Nat) : Nat → Nat → Option (Except String (List TransferOption))
  | 0, _ => none
  | fuel + 1, zi =>
    if zi < buf.length - 1 then
      match toStr buf (zi + 1) with
      | none => none
      | some (.error e) => some (.error e)
      | some (.ok (name, zi1)) =>
        match toStr buf (zi1 + 1) with
        | none => none
        | some (.error e) => some (.error e)
        | some (.ok (value, zi2)) =>
          match OptionType.fromStr (name.map asciiLower) with
          | some t =>
            match parseU64 value with
            | .ok v =>
              match parseOptsLoop buf fuel zi2 with
              | none => none
              | some (.error e) => some (.error e)
              | some (.ok opts) => some (.ok (⟨t, v⟩ :: opts))
            | .error e => some (.error e)
          | none => parseOptsLoop buf fuel zi2
    else some (.ok [])

/-- `parse_rq`: filename, mode, then the option pairs. -/
def parseRq (buf : List Nat) (opcode : Opcode) : Option (Except String Packet) :=
  match toStr buf 2 with
  | none => none
  | some (.error e) => some (.error e)
  | some (.ok (filename, z1)) =>
    match toStr buf (z1 + 1) with
    | none => none
    | some (.error e) => some (.error e)
    | some (.ok (mode, z2)) =>
      match parseOptsLoop buf buf.length z2 with
      | none => none
      | some (.error e) => some (.error e)
      | some (.ok options) =>
        match opcode with
        | .rrq => some (.ok (.rrq filename mode options))
        | .wrq => some (.ok (.wrq filename mode options))
        | _ => some (.error "Non request opcode")

/-- `parse_data`: block number from `buf[2..]`, payload `buf[4..]`. -/
def parseData (buf : List Nat) : Option (Except String Packet) :=
  match sliceFrom buf 2 with
  | none => none
  | some t2 =>
    match toU16 t2 with
    | .error e => some (.error e)
    | .ok bn =>
      match sliceFrom buf 4 with
      | none => none
      | some payload => some (.ok (.data bn payload))

/-- `parse_ack`: block number from `buf[2..]`. -/
def parseAck (buf : List Nat) : Option (Except String Packet) :=
  match sliceFrom buf 2 with
  | none => none
  | some t2 =>
    match toU16 t2 with
    | .error e => some (.error e)
    | .ok bn => some (.ok (.ack bn))

/-- `parse_oack`: the option loop starting at `zero_index = 1`. -/
def parseOack (buf : List Nat) : Option (Except String Packet) :=
  match parseOptsLoop buf buf.length 1 with
  | none => none
  | some (.error e) => some (.error e)
  | some (.ok options) => some (.ok (.oack options))

/-- `parse_error`: code from `buf[2..]`; a missing or non-UTF-8 message
falls back to `"(no message)"`. -/
def parseError (buf : List Nat) : Option (Except String Packet) :=
  match sliceFrom buf 2 with
  | none => none
  | some t2 =>
    match toU16 t2 with
    | .error e => some (.error e)
    | .ok cn =>
      match ErrorCode.fromU16 cn with
      | .error e => some (.error e)
      | .ok code =>
        match toStr buf 4 with
        | none => none
        | some (.ok (msg, _)) => some (.ok (.err code msg))
        | some (.error _) => some (.ok (.err code (strBytes "(no message)")))

/-- `Packet::deserialize`: length guard, opcode dispatch.  `none` models a
panic (or fuel exhaustion of the option loop); the totality theorem shows it
never occurs. -/
def Packet.deserialize (buf : List Nat) : Option (Except String Packet) :=
  if buf.length < 2 then some (.error "Buffer too short to serialize")
  else
    match toU16 (buf.take 2) with
    | .error e => some (.error e)
    | .ok v =>
      match Opcode.fromU16 v with
      | .error e => some (.error e)
      | .ok .rrq => parseRq buf .rrq
      | .ok .wrq => parseRq buf .wrq
      | .ok .data => parseData buf
      | .ok .ack => parseAck buf
      | .ok .oack => parseOack buf
      | .ok .error => parseError buf

/-! ## `src/window.rs` — the window buffer (sender side)

The file is modelled as the list of its remaining unread bytes; `File::read`
into a `chunk_size` buffer returns `min(chunk_size, remaining)` bytes. -/

/-- `Window::fill`: append `chunk_size`-byte chunks read from the file until
the window holds `size` chunks (result `true`) or a short (possibly empty)
chunk is read, which is pushed as the terminal frame (result `false`).
Returns the new frame list, the remaining file bytes, and the flag. -/
def fillChunks (blockSize : Nat) : Nat → List Nat → List (List Nat) × List Nat × Bool
  | 0, rest => ([], rest, true)
  | slots + 1, rest =>
    let chunk := rest.take blockSize
    if chunk.length ≠ blockSize then ([chunk], rest.drop blockSize, false)
    else
      let r := fillChunks blockSize slots (rest.drop blockSize)
      (chunk :: r.1, r.2.1, r.2.2)

/-- `Window::fill` proper: the loop `for _ in self.len()..self.size` runs
over the `size - len` free slots. -/
def fillWindow (size blockSize : Nat) (elems : List (List Nat)) (rest : List Nat) :
    List (List Nat) × List Nat × Bool :=
  let r := fillChunks blockSize (size - elems.length) rest
  (elems ++ r.1, r.2.1, r.2.2)

/-! ## `src/options.rs` / `src/worker.rs` — rollover policy and worker
configuration -/

/-- `Rollover`: the block-counter roll-over policy. -/
inductive Rollover where
  | none
  | enforce0
  | enforce1
  | dontCare
deriving DecidableEq, Repr

/-- The slice of `OptionsPrivate` and `OptionsProtocol` that the worker's
transfer loops read. -/
structure WorkerCfg where
  blockSize : Nat
  windowSize : Nat
  maxRetries : Nat
  rollover : Rollover
  repeatCount : Nat
deriving DecidableEq, Repr

/-- The ERROR packet sent by `Worker::send_rollover_error`. -/
def rolloverErrPkt : Packet :=
  .err .illegalOperation (strBytes "Block counter rollover error")

/-- The timeout failure message
`format!("Transfer timed out after {} tries", max_retries)`. -/
def timeoutMsg (maxRetries : Nat) : String :=
  "Transfer timed out after " ++ toString maxRetries ++ " tries"

/-! ## `src/worker.rs` — sender (`Worker::send_file`) -/

/-- The sender's mutable loop state (`block_seq_win`, `win_idx`, the window
frames, the `more` flag, the unread file bytes, and `retry_cnt`). -/
structure SenderSt where
  blockSeqWin : Nat
  winIdx : Nat
  window : List (List Nat)
  more : Bool
  rest : List Nat
  retryCnt : Nat
deriving DecidableEq, Repr

/-- The initial sender state: zero counters and a first `window.fill()` from
the file (worker.rs lines 149–156). -/
def senderInit (cfg : WorkerCfg) (file : List Nat) : SenderSt :=
  let f := fillWindow cfg.windowSize cfg.blockSize [] file
  { blockSeqWin := 0, winIdx := 0, window := f.1, more := f.2.2, rest := f.2.1, retryCnt := 0 }

/-- `u16` wrapping subtraction `a.wrapping_sub(b)` (for `a, b < 2^16`). -/
def wrapSub16 (a b : Nat) : Nat := (a + u16Mod - b) % u16Mod

/-- The cumulative-ACK distance computed in `send_file`:
`diff = ack.wrapping_sub(block_seq_win)`, minus one when `ack <
block_seq_win` and the rollover policy is `Enforce1`. -/
def ackDiff (rollover : Rollover) (blockSeqWin ack : Nat) : Nat :=
  let d := wrapSub16 ack blockSeqWin
  if ack < blockSeqWin ∧ rollover = .enforce1 then d - 1 else d

/-- The result of transmit-time block numbering
(worker.rs lines 177–184). -/
inductive TxResult where
  | ok (blockNum : Nat)
  | rolloverFail
deriving DecidableEq, Repr

/-- `block_seq_tx = block_seq_win.wrapping_add(win_idx + 1)`, with the
rollover policy applied when the result wrapped (detected by
`block_seq_tx < block_seq_win`): `None` fails the transfer, `Enforce0` and
`DontCare` keep the wrapped value, `Enforce1` adds one.  (`win_idx + 1`
itself cannot overflow: `win_idx < window.len() ≤ window_size ≤ 65535`.) -/
def txBlockNum (rollover : Rollover) (blockSeqWin winIdx : Nat) : TxResult :=
  let tx := (blockSeqWin + winIdx + 1) % u16Mod
  if tx < blockSeqWin then
    match rollover with
    | .none => .rolloverFail
    | .enforce0 | .dontCare => .ok tx
    | .enforce1 => .ok (tx + 1)
  else .ok tx

/-- What the newest drained ACK makes the sender do
(worker.rs lines 224–246). -/
inductive AckAction where
  | dup
  | slide (st2 : SenderSt)
  | finished
  | failRemove (msg : String)
  | ignore
deriving DecidableEq, Repr

/-- Interpretation of the newest drained ACK: `diff = 0` is a duplicate;
`0 < diff ≤ window_size` slides — `block_seq_win = ack`,
`window.remove(diff)` (which fails when `diff` exceeds the buffered frame
count), success when `!more` and the window emptied, otherwise
`more = more && window.fill()` and `win_idx = 0`; `diff > window_size` is
ignored. -/
def ackStep (cfg : WorkerCfg) (st : SenderSt) (ack : Nat) : AckAction :=
  let diff := ackDiff cfg.rollover st.blockSeqWin ack
  if diff = 0 then .dup
  else if diff ≤ cfg.windowSize then
    if st.window.length < diff then
      .failRemove "amount cannot be larger than length of window"
    else
      let window1 := st.window.drop diff
      if !st.more ∧ window1.isEmpty then .finished
      else if st.more then
        let f := fillWindow cfg.windowSize cfg.blockSize window1 st.rest
        .slide { st with blockSeqWin := ack, winIdx := 0,
                         window := f.1, rest := f.2.1, more := f.2.2 }
      else
        .slide { st with blockSeqWin := ack, winIdx := 0, window := window1 }
  else .ignore

/-- One `recv` outcome seen by the sender's inner loop.  The `TimeCmp` field
abstracts the wall clock: how `Instant::now()` compares to `timeout_end`
while that event is handled. -/
inductive TimeCmp where
  | before
  | same
  | after
deriving DecidableEq, Repr

/-- Events driving the sender loop: a received ACK, a received ERROR, some
other packet, `WouldBlock`/`TimedOut`, `ConnectionReset`, or another I/O
error kind. -/
inductive SendEvent where
  | ack (n : Nat)
  | errPkt (code : ErrorCode) (msg : List Nat)
  | otherPkt (t : TimeCmp)
  | wouldBlock (t : TimeCmp)
  | reset (t : TimeCmp)
  | ioOther (t : TimeCmp)
deriving DecidableEq, Repr

/-- How `send_file` can end. `starved` is the abstraction's artifact for an
exhausted event stream (the real loop would block on the socket). -/
inductive SendOutcome where
  | done
  | failPeer (code : ErrorCode) (msg : List Nat)
  | failTimeout (msg : String)
  | failLocal (msg : String)
  | failRollover
  | starved
deriving DecidableEq, Repr

/-- A run's result: the outcome, the packets put on the wire (in order), and
how many times the bottom-of-loop timeout check fired. -/
structure RunRes (α : Type) where
  outcome : α
  sent : List Packet
  timeouts : Nat
deriving DecidableEq, Repr

/-- Prepend an outbound packet; `Worker::send_packet` transmits
`repeat_count` copies. -/
def RunRes.addSent (n : Nat) (p : Packet) (r : RunRes α) : RunRes α :=
  { r with sent := List.replicate n p ++ r.sent }

/-- Count one firing of the expired-timeout branch. -/
def RunRes.bumpTimeout (r : RunRes α) : RunRes α :=
  { r with timeouts := r.timeouts + 1 }

/-- `Worker::send_file` as one fuelled state machine over the event trace.
`transmit = true` is the head of the outer loop (worker.rs line 175:
transmit the frame at `win_idx`, applying the rollover policy to its block
number); `transmit = false` is the inner receive loop (lines 203–277):
drain ACKs keeping the newest, fail on a received ERROR, interpret the
newest ACK on `WouldBlock`; non-ACK packets and other I/O errors fall
through to the bottom-of-loop clock check `if timeout_end < Instant::now()`
(lines 262–276), which is inlined at its three reachable spots: when
expired, fail at `retry_cnt == max_retries` — `retry_cnt` is never reset —
otherwise bump `retry_cnt`, rewind `win_idx = 0` and retransmit.  The fuel
only bounds the recursion; `runSender` supplies enough for the whole
trace. -/
def senderRun (cfg : WorkerCfg) :
    Nat → Bool → SenderSt → Option Nat → List SendEvent → RunRes SendOutcome
  | 0, _, _, _, _ => { outcome := .starved, sent := [], timeouts := 0 }
  | fuel + 1, true, st, _, events =>
    match st.window.get? st.winIdx with
    | some frame =>
      match txBlockNum cfg.rollover st.blockSeqWin st.winIdx with
      | .rolloverFail =>
        { outcome := .failRollover,
          sent := List.replicate cfg.repeatCount rolloverErrPkt, timeouts := 0 }
      | .ok bn =>
        RunRes.addSent cfg.repeatCount (.data bn frame)
          (senderRun cfg fuel false { st with winIdx := st.winIdx + 1 } none events)
    | none => senderRun cfg fuel false st none events
  | fuel + 1, false, st, lastAck, events =>
    match events with
    | [] => { outcome := .starved, sent := [], timeouts := 0 }
    | e :: rest =>
      match e with
      | .ack n => senderRun cfg fuel false st (some n) rest
      | .errPkt code msg =>
        { outcome := .failPeer code msg, sent := [], timeouts := 0 }
      | .otherPkt t | .reset t | .ioOther t =>
        if t = .after then
          if st.retryCnt = cfg.maxRetries then
            { outcome := .failTimeout (timeoutMsg cfg.maxRetries),
              sent := [], timeouts := 1 }
          else
            RunRes.bumpTimeout (senderRun cfg fuel true
              { st with retryCnt := st.retryCnt + 1, winIdx := 0 } none rest)
        else senderRun cfg fuel false st lastAck rest
      | .wouldBlock t =>
        match lastAck with
        | some a =>
          match ackStep cfg st a with
          | .dup => senderRun cfg fuel true st none rest
          | .slide st2 => senderRun cfg fuel true st2 none rest
          | .finished => { outcome := .done, sent := [], timeouts := 0 }
          | .failRemove m => { outcome := .failLocal m, sent := [], timeouts := 0 }
          | .ignore =>
            if st.winIdx < st.window.length ∧ t = .before then
              senderRun cfg fuel true st none rest
            else if t = .after then
              if st.retryCnt = cfg.maxRetries then
                { outcome := .failTimeout (timeoutMsg cfg.maxRetries),
                  sent := [], timeouts := 1 }
              else
                RunRes.bumpTimeout (senderRun cfg fuel true
                  { st with retryCnt := st.retryCnt + 1, winIdx := 0 } none rest)
            else senderRun cfg fuel false st lastAck rest
        | none =>
          if st.winIdx < st.window.length ∧ t = .before then
            senderRun cfg fuel true st none rest
          else if t = .after then
            if st.retryCnt = cfg.maxRetries then
              { outcome := .failTimeout (timeoutMsg cfg.maxRetries),
                sent := [], timeouts := 1 }
            else
              RunRes.bumpTimeout (senderRun cfg fuel true
                { st with retryCnt := st.retryCnt + 1, winIdx := 0 } none rest)
          else senderRun cfg fuel false st lastAck rest

/-- `Worker::send_file` on a file and an abstract event trace (after the
optional `check_response` handshake).  The supplied fuel exceeds the two
machine steps any event can cost, so it never runs out before the trace
does. -/
def runSender (cfg : WorkerCfg) (file : List Nat) (events : List SendEvent) :
    RunRes SendOutcome :=
  senderRun cfg (2 * events.length + 4) true (senderInit cfg file) none events

/-! ## `src/worker.rs` — receiver (`Worker::receive_file`) -/

/-- The receiver's mutable loop state.  `written` is the byte content of the
output file so far (each `window.empty()` appends the buffered frames). -/
structure RecvSt where
  blockNumber : Nat
  window : List (List Nat)
  written : List Nat
  retryCnt : Nat
  lastFlag : Bool
  listenAll : Bool
deriving DecidableEq, Repr

/-- Modelled from the spec: `Window::file_len` (absent from
`src/window.rs`; the spec says "`file_len`: current size of the underlying
file on disk") is the length of the bytes written so far. -/
def RecvSt.fileLen (st : RecvSt) : Nat := st.written.length

/-- Events driving the receiver loop. -/
inductive RecvEvent where
  | data (n : Nat) (payload : List Nat)
  | errPkt (code : ErrorCode) (msg : List Nat)
  | otherPkt
  | wouldBlock
  | reset
  | ioOther
deriving DecidableEq, Repr

/-- How `receive_file` can end; `done size` is `Ok(window.file_len())`. -/
inductive RecvOutcome where
  | done (size : Nat)
  | failPeer (code : ErrorCode) (msg : List Nat)
  | failTimeout (msg : String)
  | failLocal (msg : String)
  | failRollover
  | starved
deriving DecidableEq, Repr

/-- The expected-block-number computation for a received DATA
(worker.rs lines 315–338): `block_number + 1` wrapping, with the rollover
policy consulted when it wraps to 0; `none` is the rollover failure. -/
def recvExpected (rollover : Rollover) (blockNumber n : Nat) : Option Nat :=
  let nb := (blockNumber + 1) % u16Mod
  if nb = 0 then
    match rollover with
    | .none => none
    | .enforce0 => some nb
    | .enforce1 => if n = 0 then none else some 1
    | .dontCare => if n = 1 then some 1 else some nb
  else some nb

/-- The body handling a DATA packet once the expected block number `nb` is
fixed (worker.rs lines 340–351): on a match record it (`window.add` errors
on a full window — the `String`), a mismatch just forces a re-ACK; either
way `listen_all` is set.  Returns the new state and the `send_ack` flag. -/
def recvDataStep (cfg : WorkerCfg) (st : RecvSt) (nb n : Nat)
    (payload : List Nat) : Except String (RecvSt × Bool) :=
  if n = nb then
    if st.window.length = cfg.windowSize then
      .error "cannot add to a full window"
    else
      let last2 : Bool := payload.length < cfg.blockSize
      let st2 := { st with blockNumber := n, window := st.window ++ [payload],
                           lastFlag := last2, listenAll := true }
      .ok (st2, st2.window.length = cfg.windowSize || last2)
  else .ok ({ st with listenAll := true }, true)

/-- `Worker::receive_file` as one fuelled state machine.  `flush = true` is
the step after the inner loop (worker.rs lines 395–397): `window.empty()`
commits the buffered frames to the file, `Ack(block_number)` is sent, and
the outer loop continues unless `last`.  `flush = false` is the inner
`while !send_ack` loop (lines 306–393): an in-order DATA is buffered
(`last` when short), a mismatched DATA forces a re-ACK, a received ERROR
fails, `WouldBlock` first drops back to blocking mode and only then counts
against the retry budget (`retry_cnt` is never reset), and a retry re-ACKs
the last in-order block. -/
def receiverRun (cfg : WorkerCfg) :
    Nat → Bool → RecvSt → List RecvEvent → RunRes RecvOutcome
  | 0, _, _, _ => { outcome := .starved, sent := [], timeouts := 0 }
  | fuel + 1, true, st, events =>
    let st2 := { st with written := st.written ++ st.window.flatten, window := [] }
    RunRes.addSent cfg.repeatCount (.ack st2.blockNumber)
      (if st2.lastFlag then { outcome := .done st2.fileLen, sent := [], timeouts := 0 }
       else receiverRun cfg fuel false st2 events)
  | fuel + 1, false, st, events =>
    match events with
    | [] => { outcome := .starved, sent := [], timeouts := 0 }
    | e :: rest =>
      match e with
      | .data n payload =>
        match recvExpected cfg.rollover st.blockNumber n with
        | none =>
          { outcome := .failRollover,
            sent := List.replicate cfg.repeatCount rolloverErrPkt, timeouts := 0 }
        | some nb =>
          match recvDataStep cfg st nb n payload with
          | .error m => { outcome := .failLocal m, sent := [], timeouts := 0 }
          | .ok (st2, sendAck) => receiverRun cfg fuel sendAck st2 rest
      | .errPkt code msg =>
        { outcome := .failPeer code msg, sent := [], timeouts := 0 }
      | .otherPkt => receiverRun cfg fuel false st rest
      | .wouldBlock =>
        if st.listenAll then receiverRun cfg fuel false { st with listenAll := false } rest
        else if st.retryCnt = cfg.maxRetries then
          { outcome := .failTimeout (timeoutMsg cfg.maxRetries), sent := [], timeouts := 1 }
        else
          RunRes.bumpTimeout
            (receiverRun cfg fuel true { st with retryCnt := st.retryCnt + 1 } rest)
      | .reset => receiverRun cfg fuel false st rest
      | .ioOther => receiverRun cfg fuel false st rest

/-- `Worker::receive_file` on an abstract event trace. -/
def runReceiver (cfg : WorkerCfg) (events : List RecvEvent) : RunRes RecvOutcome :=
  receiverRun cfg (2 * events.length + 4) false
    { blockNumber := 0, window := [], written := [], retryCnt := 0,
      lastFlag := false, listenAll := false } events

/-- What the `Worker::receive` wrapper (worker.rs lines 104–146) reports:
overall success, whether deletion of the partial file was attempted, and
whether the failure was the negotiated-size mismatch. -/
structure ReceiveReport where
  ok : Bool
  deleted : Bool
  sizeMismatch : Bool
deriving DecidableEq, Repr

/-- `Worker::receive`: on `Ok(size)` compare against the negotiated
`transfer_size` — a mismatch logs "Size mismatch" and reports failure
without touching the file; on `Err` report failure and attempt
`fs::remove_file` when `clean_on_error`. -/
def workerReceive (cleanOnError : Bool) (transferSize : Option Nat)
    (r : RunRes RecvOutcome) : ReceiveReport :=
  match r.outcome with
  | .done size =>
    match transferSize with
    | some t =>
      if t ≠ size then { ok := false, deleted := false, sizeMismatch := true }
      else { ok := true, deleted := false, sizeMismatch := false }
    | none => { ok := true, deleted := false, sizeMismatch := false }
  | _ => { ok := false, deleted := cleanOnError, sizeMismatch := false }

/-! ## `src/options.rs` — `OptionsProtocol` (negotiation and application) -/

/-- `RequestType` (from `src/server.rs`): a read request carries the true
file length. -/
inductive RequestType where
  | read (size : Nat)
  | write
deriving DecidableEq, Repr

/-- The negotiated protocol options.  Durations are in milliseconds. -/
structure OptionsProtocol where
  blockSize : Nat
  windowSize : Nat
  windowWaitMillis : Nat
  timeoutMillis : Nat
  transferSize : Option Nat
deriving DecidableEq, Repr

/-- `OptionsProtocol::default()`: block size 512, window size 1, window wait
0 ms, timeout 5 s, no transfer size. -/
def OptionsProtocol.default : OptionsProtocol :=
  { blockSize := 512, windowSize := 1, windowWaitMillis := 0,
    timeoutMillis := 5000, transferSize := none }

/-- One iteration of the `OptionsProtocol::parse` loop
(options.rs lines 115–178): clamp the received value in place, then record
it.  Returns the updated accumulator and the (possibly rewritten) option. -/
def parseOptionStep (rt : RequestType) (acc : OptionsProtocol) (o : TransferOption) :
    OptionsProtocol × TransferOption :=
  match o.option with
  | .blockSize =>
    let v := if o.value = 0 then 512 else if 65464 < o.value then 65464 else o.value
    ({ acc with blockSize := v % u16Mod }, { o with value := v })
  | .transferSize =>
    match rt with
    | .read size => ({ acc with transferSize := some size }, { o with value := size })
    | .write => ({ acc with transferSize := some o.value }, o)
  | .timeout =>
    let v := if o.value = 0 then 1 else if 255 < o.value then 255 else o.value
    ({ acc with timeoutMillis := 1000 * v }, { o with value := v })
  | .timeoutMs =>
    let v := if o.value = 0 then 1 else if 255 < o.value then 255 else o.value
    ({ acc with timeoutMillis := v }, { o with value := v })
  | .windowSize =>
    let v := if o.value = 0 then 1 else if 65535 < o.value then 65535 else o.value
    ({ acc with windowSize := v % u16Mod }, { o with value := v })
  | .windowWait => ({ acc with windowWaitMillis := o.value }, o)

/-- `OptionsProtocol::parse` (the server-side negotiator): walk the received
options left to right from the defaults, clamping each value in place; the
rewritten list is what the OACK echoes.  The Rust function returns `Result`
but every path is `Ok`. -/
def OptionsProtocol.parse (options : List TransferOption) (rt : RequestType) :
    OptionsProtocol × List TransferOption :=
  options.foldl
    (fun s o =>
      let r := parseOptionStep rt s.1 o
      (r.1, s.2 ++ [r.2]))
    (OptionsProtocol.default, [])

/-- `OptionsProtocol::apply` (options.rs lines 183–196): overwrite each
field named by an option with the server's returned value; fields of
options absent from the list are left untouched. -/
def OptionsProtocol.apply (s : OptionsProtocol) (options : List TransferOption) :
    OptionsProtocol :=
  options.foldl
    (fun acc o =>
      match o.option with
      | .blockSize => { acc with blockSize := o.value % u16Mod }
      | .windowSize => { acc with windowSize := o.value % u16Mod }
      | .windowWait => { acc with windowWaitMillis := o.value }
      | .timeout => { acc with timeoutMillis := 1000 * o.value }
      | .timeoutMs => { acc with timeoutMillis := o.value }
      | .transferSize => { acc with transferSize := some o.value }) s

/-! ## `src/client.rs` — `Client::verify_oack` -/

/-- The option-bearing fields of the `Client` struct. -/
structure ClientSt where
  blocksize : Nat
  windowSize : Nat
  windowWaitMillis : Nat
  timeoutMillis : Nat
  transferSize : Nat
deriving DecidableEq, Repr

/-- `Client::verify_oack` (client.rs lines 241–254): for every option in the
received OACK, set the corresponding client field; nothing else changes. -/
def ClientSt.verifyOack (c : ClientSt) (options : List TransferOption) : ClientSt :=
  options.foldl
    (fun acc o =>
      match o.option with
      | .blockSize => { acc with blocksize := o.value }
      | .windowSize => { acc with windowSize := o.value % u16Mod }
      | .windowWait => { acc with windowWaitMillis := o.value }
      | .timeout => { acc with timeoutMillis := 1000 * o.value }
      | .timeoutMs => { acc with timeoutMillis := o.value }
      | .transferSize => { acc with transferSize := o.value }) c

/-! ## `src/server.rs` — path handling (Unix host: `MAIN_SEPARATOR = '/'`) -/

/-- `convert_file_path`: strip leading `'/'` and `'\'`, then replace the
foreign separator `'\'` with `'/'`. -/
def convertFilePath (filename : List Char) : List Char :=
  let formatted := filename.dropWhile (fun c => c = '/' ∨ c = '\\')
  formatted.map (fun c => if c = '\\' then '/' else c)

/-- `PathBuf::push`/`join` at the string level: append a separator (when the
base is non-empty and does not already end in one) and the relative path.
The joined operand here is never absolute, so no replacement case arises. -/
def joinPath (dir rel : List Char) : List Char :=
  if dir = [] ∨ dir.getLast? = some '/' then dir ++ rel else dir ++ '/' :: rel

/-- Whether a path string is absolute (`Path::is_absolute` on Unix). -/
def pathIsAbs (p : List Char) : Bool := p.head? = some '/'

/-- The normal components of a path (`Path::components` drops empty segments
and `"."`; `".."` is kept). -/
def pathParts (p : List Char) : List (List Char) :=
  (p.splitOn '/').filter (fun s => s ≠ [] ∧ s ≠ ['.'])

/-- `file.ancestors().any(|a| a == directory)`: `Path` equality compares
components, and the ancestors of a path are exactly its component prefixes
(with the same absoluteness), so the check holds iff the directory's
components are a prefix of the file's. -/
def ancestorMatch (file dir : List Char) : Bool :=
  (pathIsAbs file == pathIsAbs dir) && (pathParts dir).isPrefixOf (pathParts file)

/-- Substring test, modelling Rust `str::contains`. -/
def hasSub (s pat : List Char) : Bool :=
  (List.range (s.length + 1)).any (fun i => pat.isPrefixOf (s.drop i))

/-- `validate_file_path` (server.rs lines 439–441): the path string must not
contain `".."` anywhere, and the configured directory must be an ancestor. -/
def validateFilePath (file dir : List Char) : Bool :=
  !(hasSub file ['.', '.']) && ancestorMatch file dir

/-- `check_file_exists` (server.rs lines 427–437), with the on-disk
existence of the file abstracted as a boolean. -/
def checkFileExists (existsOnDisk : Bool) (file dir : List Char) : ErrorCode :=
  if !(validateFilePath file dir) then .accessViolation
  else if !existsOnDisk then .fileNotFound
  else .fileExists

/-- The dispatcher's path pipeline (`handle_rrq`/`handle_wrq` lines
158–160, 235–236): convert the requested filename, join it to the
configured directory, and check it. -/
def dispatcherCheck (existsOnDisk : Bool) (dir filename : List Char) : ErrorCode :=
  checkFileExists existsOnDisk (joinPath dir (convertFilePath filename)) dir

/-! ## Specification-side definitions

These do not model Rust code; they phrase the spec's notions ("legal
packet", "legal wire image", the per-pair reading of the option region) so
the refinement theorems can compare the code against them. -/

/-- A byte string that can travel in a zero-terminated wire field: free of
zero bytes and valid UTF-8 (in Rust the latter is a `String` invariant). -/
def legalStr (s : List Nat) : Prop := 0 ∉ s ∧ utf8Valid s = true

instance (s : List Nat) : Decidable (legalStr s) := by
  unfold legalStr
  infer_instance

/-- A legal internal packet in the sense of the spec's round-trip property:
strings are legal wire strings, counters fit `u16`, option values fit
`u64`. -/
def Packet.legal : Packet → Prop
  | .rrq filename mode options =>
    legalStr filename ∧ legalStr mode ∧ ∀ o ∈ options, o.value < u64Mod
  | .wrq filename mode options =>
    legalStr filename ∧ legalStr mode ∧ ∀ o ∈ options, o.value < u64Mod
  | .data blockNum _ => blockNum < u16Mod
  | .ack blockNum => blockNum < u16Mod
  | .err _ msg => legalStr msg
  | .oack options => ∀ o ∈ options, o.value < u64Mod

instance (p : Packet) : Decidable p.legal := by
  cases p <;> (simp only [Packet.legal]; infer_instance)

/-- A legal wire image: the serialization of some legal packet. -/
def legalWire (b : List Nat) : Prop := ∃ p : Packet, p.legal ∧ p.serialize = b

/-- Well-formedness of one `name\0value\0` wire pair. -/
def pairWF (p : List Nat × List Nat) : Prop := legalStr p.1 ∧ legalStr p.2

instance (p : List Nat × List Nat) : Decidable (pairWF p) := by
  unfold pairWF
  infer_instance

/-- The wire encoding of a list of option pairs. -/
def encPairs (ps : List (List Nat × List Nat)) : List Nat :=
  ps.flatMap (fun p => p.1 ++ [0] ++ p.2 ++ [0])

/-- The spec-level reading of the option region, one pair at a time: keep a
recognized name with its parsed value, fail the packet on an unparsable
value of a recognized name (propagating the `ParseIntError` message), skip
an unrecognized name. -/
def procPairs : List (List Nat × List Nat) → Except String (List TransferOption)
  | [] => .ok []
  | (n, v) :: ps =>
    match OptionType.fromStr (n.map asciiLower) with
    | some t =>
      match parseU64 v with
      | .ok x =>
        match procPairs ps with
        | .ok opts => .ok (⟨t, x⟩ :: opts)
        | .error e => .error e
      | .error e => .error e
    | none => procPairs ps

/-- The wire pairs of a list of internal options. -/
def optPairs (options : List TransferOption) : List (List Nat × List Nat) :=
  options.map (fun o => (o.option.asStr, natDigits o.value))

/-- Whether a sender event reaches the loop bottom with the timeout
expired: the events that can consume retry budget. -/
def expiredAt : SendEvent → Bool
  | .wouldBlock .after | .otherPkt .after | .reset .after | .ioOther .after => true
  | _ => false

/-- The last option in a list whose kind satisfies `sel` (the winner of the
left-to-right overwrite in `verify_oack` / `apply`). -/
def lastOpt (options : List TransferOption) (sel : OptionType → Bool) :
    Option TransferOption :=
  (options.filter (fun o => sel o.option)).getLast?

/-- Decidable equality of `Except` results (kernel-reducible, for the
concrete evaluation theorems). -/
instance {ε α : Type} [DecidableEq ε] [DecidableEq α] : DecidableEq (Except ε α) :=
  fun a b =>
    match a, b with
    | .ok x, .ok y =>
      if h : x = y then .isTrue (by rw [h]) else .isFalse (fun hc => h (by injection hc))
    | .error x, .error y =>
      if h : x = y then .isTrue (by rw [h]) else .isFalse (fun hc => h (by injection hc))
    | .ok _, .error _ => .isFalse (fun hc => nomatch hc)
    | .error _, .ok _ => .isFalse (fun hc => nomatch hc)

/-- The retry-budget contract of a sender run started with `retry_cnt =
retry0`: the bottom-of-loop timeout check fires at most `max_retries + 1 -
retry0` times in total, a timeout failure carries the timeout message and
happens exactly when the budget is used up, a peer failure names an ERROR
event of the trace, and a local failure is the `window.remove` error. -/
def sendBudget (cfg : WorkerCfg) (retry0 : Nat) (events : List SendEvent)
    (r : RunRes SendOutcome) : Prop :=
  r.timeouts + retry0 ≤ cfg.maxRetries + 1 ∧
  (∀ m, r.outcome = .failTimeout m →
    m = timeoutMsg cfg.maxRetries ∧ r.timeouts + retry0 = cfg.maxRetries + 1) ∧
  (∀ c m, r.outcome = .failPeer c m → SendEvent.errPkt c m ∈ events) ∧
  (∀ m, r.outcome = .failLocal m →
    m = "amount cannot be larger than length of window")

/-- The retry-budget contract of a receiver run started with `retry_cnt =
retry0`; the local failure here is the `window.add` error. -/
def recvBudget (cfg : WorkerCfg) (retry0 : Nat) (events : List RecvEvent)
    (r : RunRes RecvOutcome) : Prop :=
  r.timeouts + retry0 ≤ cfg.maxRetries + 1 ∧
  (∀ m, r.outcome = .failTimeout m →
    m = timeoutMsg cfg.maxRetries ∧ r.timeouts + retry0 = cfg.maxRetries + 1) ∧
  (∀ c m, r.outcome = .failPeer c m → RecvEvent.errPkt c m ∈ events) ∧
  (∀ m, r.outcome = .failLocal m → m = "cannot add to a full window")

/-! # Proofs -/

/-! ## Basic facts about the byte-level helpers -/

lemma findZeroIdx_at (s rest : List Nat) (h : 0 ∉ s) :
    findZeroIdx (s ++ 0 :: rest) = some s.length := by
  induction s with
  | nil => simp [findZeroIdx]
  | cons b s ih =>
    have hb : b ≠ 0 := fun e => h (by simp [e])
    have hs : 0 ∉ s := fun e => h (by simp [e])
    simp [findZeroIdx, hb, ih hs]

lemma findZeroIdx_bounds (l : List Nat) (j : Nat)
    (h : findZeroIdx l = some j) : j < l.length := by
  induction l generalizing j with
  | nil => simp [findZeroIdx] at h
  | cons b l ih =>
    unfold findZeroIdx at h
    by_cases hb : b = 0
    · simp [hb] at h
      simp only [List.length_cons]
      omega
    · simp [hb] at h
      obtain ⟨a, ha, rfl⟩ := h
      have := ih a ha
      simp only [List.length_cons]
      omega

lemma toStr_eq (buf : List Nat) (start : Nat) (h : start ≤ buf.length) :
    toStr buf start =
      match findZeroIdx (List.drop start buf) with
      | some i =>
        some
          (if utf8Valid (List.take i (List.drop start buf)) then
            .ok (List.take i (List.drop start buf), start + i)
          else .error "invalid utf-8 sequence")
      | none => some (.error "Invalid string") := by
  unfold toStr
  rw [if_pos h]

lemma toStr_at (pre s rest : List Nat) (h0 : 0 ∉ s) (hu : utf8Valid s = true) :
    toStr (pre ++ (s ++ 0 :: rest)) pre.length =
      some (.ok (s, pre.length + s.length)) := by
  have hle : pre.length ≤ (pre ++ (s ++ 0 :: rest)).length := by
    simp
  rw [toStr_eq _ _ hle, List.drop_left, findZeroIdx_at s rest h0]
  have ht : (s ++ 0 :: rest).take s.length = s := List.take_left s (0 :: rest)
  simp [ht, hu]

lemma toStr_isSome (buf : List Nat) (start : Nat) (h : start ≤ buf.length) :
    toStr buf start ≠ none := by
  rw [toStr_eq _ _ h]
  cases hf : findZeroIdx (List.drop start buf) <;> simp [hf]

lemma toStr_ok_bounds (buf : List Nat) (start : Nat) (s : List Nat) (i : Nat)
    (h : toStr buf start = some (.ok (s, i))) : start ≤ i ∧ i < buf.length := by
  by_cases hle : start ≤ buf.length
  · rw [toStr_eq _ _ hle] at h
    cases hf : findZeroIdx (List.drop start buf) with
    | none => rw [hf] at h; simp at h
    | some j =>
      rw [hf] at h
      have hb := findZeroIdx_bounds _ j hf
      rw [List.length_drop] at hb
      by_cases hv : utf8Valid (List.take j (List.drop start buf)) = true
      · simp [hv] at h
        obtain ⟨-, h2⟩ := h
        omega
      · simp [hv] at h
  · unfold toStr at h
    rw [if_neg hle] at h
    simp at h

lemma toU16_ok_len (l : List Nat) (v : Nat) (h : toU16 l = .ok v) : 2 ≤ l.length := by
  match l with
  | [] => simp [toU16] at h
  | [b] => simp [toU16] at h
  | b0 :: b1 :: t => simp

lemma toU16_be16 (n : Nat) (tail : List Nat) (h : n < u16Mod) :
    toU16 (be16 n ++ tail) = .ok n := by
  simp only [be16, toU16, List.cons_append]
  congr 1
  have : n / 256 < 256 := by unfold u16Mod at h; omega
  rw [Nat.mod_eq_of_lt this]
  omega

/-! ## Decimal digits round-trip -/

lemma natDigits_mem (n : Nat) : ∀ b ∈ natDigits n, 48 ≤ b ∧ b ≤ 57 := by
  induction n using Nat.strong_induction_on with
  | _ n ih =>
    rw [natDigits]
    by_cases h : n < 10
    · rw [dif_pos h]
      intro b hb
      simp at hb
      omega
    · rw [dif_neg h]
      intro b hb
      rw [List.mem_append] at hb
      rcases hb with hb | hb
      · exact ih (n / 10) (Nat.div_lt_self (by omega) (by omega)) b hb
      · simp at hb
        have : n % 10 < 10 := Nat.mod_lt _ (by omega)
        omega

lemma natDigits_ne_nil (n : Nat) : natDigits n ≠ [] := by
  rw [natDigits]
  by_cases h : n < 10
  · rw [dif_pos h]
    simp
  · rw [dif_neg h]
    simp

lemma natDigits_no_zero (n : Nat) : 0 ∉ natDigits n := by
  intro h
  have := natDigits_mem n 0 h
  omega

lemma utf8Valid_ascii (s : List Nat) (h : ∀ b ∈ s, b ≤ 0x7F) :
    utf8Valid s = true := by
  induction s with
  | nil => simp [utf8Valid]
  | cons b r ih =>
    have hb : b ≤ 0x7F := h b (by simp)
    simp only [utf8Valid]
    rw [if_pos hb]
    exact ih fun x hx => h x (by simp [hx])

lemma natDigits_utf8 (n : Nat) : utf8Valid (natDigits n) = true :=
  utf8Valid_ascii _ fun b hb => by have := natDigits_mem n b hb; omega

lemma parseU64core_append (xs ys : List Nat) (a : Nat) :
    parseU64core (xs ++ ys) a =
      (parseU64core xs a).bind (fun v => parseU64core ys v) := by
  induction xs generalizing a with
  | nil => rfl
  | cons x xs ih =>
    cases hd : digitVal x with
    | none =>
      simp only [List.cons_append, parseU64core, hd]
      rfl
    | some d =>
      simp only [List.cons_append, parseU64core, hd]
      by_cases hov : a * 10 + d < u64Mod
      · rw [if_pos hov, if_pos hov]
        exact ih (a * 10 + d)
      · rw [if_neg hov, if_neg hov]
        rfl

lemma parseU64core_natDigits (n : Nat) :
    ∀ a, a * 10 ^ (natDigits n).length + n < u64Mod →
      parseU64core (natDigits n) a = .ok (a * 10 ^ (natDigits n).length + n) := by
  induction n using Nat.strong_induction_on with
  | _ n ih =>
    intro a hbound
    by_cases h : n < 10
    · have hlen1 : (natDigits n).length = 1 := by
        rw [natDigits, dif_pos h]
        rfl
      rw [hlen1, pow_one] at hbound ⊢
      rw [natDigits, dif_pos h]
      have hd : digitVal (48 + n) = some n := by
        unfold digitVal
        rw [if_pos (by omega)]
        congr 1
        omega
      simp only [parseU64core, hd]
      rw [if_pos hbound]
    · have hlen : (natDigits n).length = (natDigits (n / 10)).length + 1 := by
        conv_lhs => rw [natDigits]
        rw [dif_neg h]
        simp
      have hsplit : a * 10 ^ (natDigits n).length + n =
          (a * 10 ^ (natDigits (n / 10)).length + n / 10) * 10 + n % 10 := by
        rw [hlen, pow_succ]
        have hdm : n / 10 * 10 + n % 10 = n := by omega
        ring_nf
        omega
      have hmono : a * 10 ^ (natDigits (n / 10)).length + n / 10 <
          u64Mod := by
        have hx : a * 10 ^ (natDigits (n / 10)).length ≤
            a * 10 ^ (natDigits (n / 10)).length * 10 :=
          Nat.le_mul_of_pos_right _ (by omega)
        rw [hsplit] at hbound
        omega
      have hrec := ih (n / 10) (Nat.div_lt_self (by omega) (by omega)) a hmono
      conv_lhs => rw [natDigits]
      rw [dif_neg h, parseU64core_append, hrec]
      have hd : digitVal (48 + n % 10) = some (n % 10) := by
        unfold digitVal
        have : n % 10 < 10 := Nat.mod_lt _ (by omega)
        rw [if_pos (by omega)]
        congr 1
        omega
      simp only [Except.bind, parseU64core, hd]
      rw [if_pos (by rw [hsplit] at hbound; exact hbound)]
      rw [hsplit]

lemma stripPlus_of_head_ne (b : Nat) (t : List Nat) (hb : b ≠ 43) :
    stripPlus (b :: t) = b :: t := by
  unfold stripPlus
  split
  · rename_i heq
    injection heq with h1 h2
    omega
  · rfl

lemma parseU64_natDigits (n : Nat) (h : n < u64Mod) :
    parseU64 (natDigits n) = .ok n := by
  obtain ⟨b, t, hbt⟩ : ∃ b t, natDigits n = b :: t := by
    cases hd : natDigits n with
    | nil => exact absurd hd (natDigits_ne_nil n)
    | cons b t => exact ⟨b, t, rfl⟩
  have hb : 48 ≤ b ∧ b ≤ 57 := natDigits_mem n b (by rw [hbt]; simp)
  have hcore : parseU64core (b :: t) 0 = .ok n := by
    rw [← hbt]
    have h0 := parseU64core_natDigits n 0 (by simpa using h)
    simpa using h0
  unfold parseU64
  rw [if_neg (natDigits_ne_nil n), hbt, stripPlus_of_head_ne b t (by omega)]
  exact hcore

/-! ## The option-region loop -/

lemma fromStr_asStr (t : OptionType) :
    OptionType.fromStr (t.asStr.map asciiLower) = some t := by
  cases t <;> decide

lemma asStr_legal (t : OptionType) : legalStr t.asStr := by
  cases t <;> constructor <;> decide

lemma optPairs_wf (os : List TransferOption) : ∀ p ∈ optPairs os, pairWF p := by
  intro p hp
  simp only [optPairs, List.mem_map] at hp
  obtain ⟨o, _, rfl⟩ := hp
  exact ⟨asStr_legal o.option, natDigits_no_zero o.value, natDigits_utf8 o.value⟩

lemma encPairs_cons (n v : List Nat) (ps : List (List Nat × List Nat)) :
    encPairs ((n, v) :: ps) = n ++ 0 :: (v ++ 0 :: encPairs ps) := by
  simp [encPairs]

lemma parseOptsLoop_spec (ps : List (List Nat × List Nat)) :
    ∀ (pre : List Nat) (fuel : Nat), (∀ p ∈ ps, pairWF p) → 1 ≤ pre.length →
      ps.length < fuel →
      parseOptsLoop (pre ++ encPairs ps) fuel (pre.length - 1) =
        some (procPairs ps) := by
  induction ps with
  | nil =>
    intro pre fuel _ hpre hfuel
    match fuel, hfuel with
    | fuel + 1, _ =>
      simp only [parseOptsLoop, encPairs, List.flatMap_nil, List.append_nil]
      rw [if_neg (by omega)]
      rfl
  | cons p ps ih =>
    obtain ⟨n, v⟩ := p
    intro pre fuel hwf hpre hfuel
    match fuel, hfuel with
    | fuel + 1, hfuel =>
      have hn : legalStr n := (hwf (n, v) (by simp)).1
      have hv : legalStr v := (hwf (n, v) (by simp)).2
      rw [encPairs_cons]
      have hlen : (pre ++ (n ++ 0 :: (v ++ 0 :: encPairs ps))).length =
          pre.length + n.length + v.length + 2 + (encPairs ps).length := by
        simp only [List.length_append, List.length_cons]
        omega
      simp only [parseOptsLoop]
      rw [if_pos (by omega)]
      have h1 : pre.length - 1 + 1 = pre.length := by omega
      rw [h1, toStr_at pre n (v ++ 0 :: encPairs ps) hn.1 hn.2]
      simp only []
      have hassoc : pre ++ (n ++ 0 :: (v ++ 0 :: encPairs ps)) =
          (pre ++ n ++ [0]) ++ (v ++ 0 :: encPairs ps) := by
        simp
      have h2 : pre.length + n.length + 1 = (pre ++ n ++ [0]).length := by
        simp_arith
      rw [hassoc, h2, toStr_at (pre ++ n ++ [0]) v (encPairs ps) hv.1 hv.2]
      simp only []
      have hassoc2 : (pre ++ n ++ [0]) ++ (v ++ 0 :: encPairs ps) =
          (pre ++ n ++ [0] ++ v ++ [0]) ++ encPairs ps := by
        simp
      have h3 : (pre ++ n ++ [0]).length + v.length =
          (pre ++ n ++ [0] ++ v ++ [0]).length - 1 := by
        simp only [List.length_append, List.length_cons, List.length_nil]
        omega
      have hrec :
          parseOptsLoop ((pre ++ n ++ [0] ++ v ++ [0]) ++ encPairs ps) fuel
            ((pre ++ n ++ [0] ++ v ++ [0]).length - 1) = some (procPairs ps) := by
        apply ih
        · exact fun q hq => hwf q (by simp [hq])
        · simp only [List.length_append, List.length_cons, List.length_nil]
          omega
        · simp only [List.length_cons] at hfuel
          omega
      rw [hassoc2, h3]
      cases hft : OptionType.fromStr (List.map asciiLower n) with
      | none =>
        rw [hrec]
        simp only [procPairs, hft]
      | some t =>
        cases hpv : parseU64 v with
        | error e => simp only [procPairs, hft, hpv]
        | ok x =>
          rw [hrec]
          simp only [procPairs, hft, hpv]
          cases procPairs ps <;> rfl

lemma parseOptsLoop_ne_none (buf : List Nat) :
    ∀ fuel zi, zi < buf.length → buf.length - zi ≤ fuel →
      parseOptsLoop buf fuel zi ≠ none := by
  intro fuel
  induction fuel with
  | zero =>
    intro zi h1 h2
    omega
  | succ fuel ih =>
    intro zi h1 h2
    simp only [parseOptsLoop]
    by_cases hcond : zi < buf.length - 1
    · rw [if_pos hcond]
      obtain ⟨r1, ht1⟩ : ∃ r1, toStr buf (zi + 1) = some r1 :=
        Option.ne_none_iff_exists'.mp (toStr_isSome buf (zi + 1) (by omega))
      rw [ht1]
      cases r1 with
      | error e => simp
      | ok pr =>
        obtain ⟨name, zi1⟩ := pr
        have hb1 := toStr_ok_bounds buf (zi + 1) name zi1 ht1
        simp only []
        obtain ⟨r2, ht2⟩ : ∃ r2, toStr buf (zi1 + 1) = some r2 :=
          Option.ne_none_iff_exists'.mp (toStr_isSome buf (zi1 + 1) (by omega))
        rw [ht2]
        cases r2 with
        | error e => simp
        | ok pr2 =>
          obtain ⟨value, zi2⟩ := pr2
          have hb2 := toStr_ok_bounds buf (zi1 + 1) value zi2 ht2
          simp only []
          have hrec := ih zi2 (by omega) (by omega)
          cases hft : OptionType.fromStr (List.map asciiLower name) with
          | none => exact hrec
          | some t =>
            cases hpv : parseU64 value with
            | error e => simp
            | ok x =>
              obtain ⟨r, hloop⟩ : ∃ r, parseOptsLoop buf fuel zi2 = some r :=
                Option.ne_none_iff_exists'.mp hrec
              rw [hloop]
              cases r <;> simp
    · rw [if_neg hcond]
      simp

/-! ## Request decoding -/

lemma flatMap_asBytes (os : List TransferOption) :
    os.flatMap TransferOption.asBytes = encPairs (optPairs os) := by
  induction os with
  | nil => rfl
  | cons o os ih =>
    simp only [List.flatMap_cons, optPairs, List.map_cons, encPairs] at *
    rw [ih]
    simp [TransferOption.asBytes]

lemma procPairs_optPairs (os : List TransferOption)
    (h : ∀ o ∈ os, o.value < u64Mod) : procPairs (optPairs os) = .ok os := by
  induction os with
  | nil => rfl
  | cons o os ih =>
    simp only [optPairs, List.map_cons, procPairs]
    rw [fromStr_asStr]
    simp only []
    rw [parseU64_natDigits o.value (h o (by simp))]
    simp only []
    have hrec : procPairs (optPairs os) = .ok os := ih fun x hx => h x (by simp [hx])
    simp only [optPairs] at hrec
    rw [hrec]

lemma encPairs_length_ge (ps : List (List Nat × List Nat)) :
    ps.length ≤ (encPairs ps).length := by
  induction ps with
  | nil => simp [encPairs]
  | cons p ps ih =>
    obtain ⟨n, v⟩ := p
    rw [encPairs_cons]
    simp only [List.length_append, List.length_cons]
    omega

lemma opcode_asBytes_len (opc : Opcode) : opc.asBytes.length = 2 := by
  cases opc <;> rfl

lemma parseRq_spec (opc : Opcode) (filename mode : List Nat)
    (ps : List (List Nat × List Nat)) (hf : legalStr filename)
    (hm : legalStr mode) (hwf : ∀ p ∈ ps, pairWF p) :
    parseRq (opc.asBytes ++ (filename ++ 0 :: (mode ++ 0 :: encPairs ps))) opc =
      some
        (match procPairs ps with
        | .error e => .error e
        | .ok options =>
          match opc with
          | .rrq => .ok (.rrq filename mode options)
          | .wrq => .ok (.wrq filename mode options)
          | _ => .error "Non request opcode") := by
  unfold parseRq
  rw [show (2 : Nat) = opc.asBytes.length from (opcode_asBytes_len opc).symm,
    toStr_at opc.asBytes filename (mode ++ 0 :: encPairs ps) hf.1 hf.2]
  simp only []
  have ha1 : opc.asBytes ++ (filename ++ 0 :: (mode ++ 0 :: encPairs ps)) =
      (opc.asBytes ++ filename ++ [0]) ++ (mode ++ 0 :: encPairs ps) := by
    simp
  have hl1 : opc.asBytes.length + filename.length + 1 =
      (opc.asBytes ++ filename ++ [0]).length := by
    simp_arith
  rw [ha1, hl1,
    toStr_at (opc.asBytes ++ filename ++ [0]) mode (encPairs ps) hm.1 hm.2]
  simp only []
  have ha2 : (opc.asBytes ++ filename ++ [0]) ++ (mode ++ 0 :: encPairs ps) =
      (opc.asBytes ++ filename ++ [0] ++ mode ++ [0]) ++ encPairs ps := by
    simp
  have hl2 : (opc.asBytes ++ filename ++ [0]).length + mode.length =
      (opc.asBytes ++ filename ++ [0] ++ mode ++ [0]).length - 1 := by
    simp only [List.length_append, List.length_cons, List.length_nil]
    omega
  rw [ha2, hl2]
  have hfuel : ps.length <
      ((opc.asBytes ++ filename ++ [0] ++ mode ++ [0]) ++ encPairs ps).length := by
    have := encPairs_length_ge ps
    simp only [List.length_append, List.length_cons, List.length_nil,
      opcode_asBytes_len]
    omega
  rw [parseOptsLoop_spec ps (opc.asBytes ++ filename ++ [0] ++ mode ++ [0]) _
    hwf (by simp only [List.length_append, List.length_cons, List.length_nil]; omega)
    hfuel]
  cases procPairs ps <;> cases opc <;> rfl

lemma deserialize_dispatch (opc : Opcode) (rest : List Nat) :
    Packet.deserialize (opc.asBytes ++ rest) =
      match opc with
      | .rrq => parseRq (opc.asBytes ++ rest) .rrq
      | .wrq => parseRq (opc.asBytes ++ rest) .wrq
      | .data => parseData (opc.asBytes ++ rest)
      | .ack => parseAck (opc.asBytes ++ rest)
      | .oack => parseOack (opc.asBytes ++ rest)
      | .error => parseError (opc.asBytes ++ rest) := by
  have hlen : ¬ (opc.asBytes ++ rest).length < 2 := by
    rw [List.length_append, opcode_asBytes_len]
    omega
  unfold Packet.deserialize
  rw [if_neg hlen]
  have htake : (opc.asBytes ++ rest).take 2 = opc.asBytes := by
    rw [show (2 : Nat) = opc.asBytes.length from (opcode_asBytes_len opc).symm]
    exact List.take_left _ _
  rw [htake]
  cases opc <;> rfl

lemma parseData_spec (bn : Nat) (payload : List Nat) (hbn : bn < u16Mod) :
    parseData (Opcode.data.asBytes ++ (be16 bn ++ payload)) =
      some (.ok (.data bn payload)) := by
  have hlen : (Opcode.data.asBytes ++ (be16 bn ++ payload)).length =
      4 + payload.length := by
    simp [Opcode.asBytes, be16]
    omega
  have h2 : List.drop 2 (Opcode.data.asBytes ++ (be16 bn ++ payload)) =
      be16 bn ++ payload := by
    rw [show (2 : Nat) = (Opcode.data.asBytes).length from rfl]
    exact List.drop_left _ _
  have h4 : List.drop 4 (Opcode.data.asBytes ++ (be16 bn ++ payload)) = payload := by
    rw [show Opcode.data.asBytes ++ (be16 bn ++ payload) =
      (Opcode.data.asBytes ++ be16 bn) ++ payload by simp]
    rw [show (4 : Nat) = (Opcode.data.asBytes ++ be16 bn).length by simp [Opcode.asBytes, be16]]
    exact List.drop_left _ _
  unfold parseData sliceFrom
  rw [if_pos (by omega), h2]
  simp only []
  rw [toU16_be16 bn payload hbn]
  simp only []
  rw [if_pos (by omega), h4]

lemma toU16_be16_nil (n : Nat) (h : n < u16Mod) : toU16 (be16 n) = .ok n := by
  have h2 := toU16_be16 n [] h
  rw [List.append_nil] at h2
  exact h2

lemma parseAck_spec (bn : Nat) (hbn : bn < u16Mod) :
    parseAck (Opcode.ack.asBytes ++ be16 bn) = some (.ok (.ack bn)) := by
  have hlen : (Opcode.ack.asBytes ++ be16 bn).length = 4 := by
    simp [Opcode.asBytes, be16]
  have h2 : List.drop 2 (Opcode.ack.asBytes ++ be16 bn) = be16 bn := by
    rw [show (2 : Nat) = (Opcode.ack.asBytes).length from rfl]
    exact List.drop_left _ _
  unfold parseAck sliceFrom
  rw [if_pos (by omega), h2]
  simp only []
  rw [toU16_be16_nil bn hbn]

lemma errorCode_fromU16_toNat (c : ErrorCode) : ErrorCode.fromU16 c.toNat = .ok c := by
  cases c <;> rfl

lemma parseError_spec (c : ErrorCode) (msg : List Nat) (hm : legalStr msg) :
    parseError (Opcode.error.asBytes ++ (c.asBytes ++ (msg ++ [0]))) =
      some (.ok (.err c msg)) := by
  have hlen : (Opcode.error.asBytes ++ (c.asBytes ++ (msg ++ [0]))).length =
      5 + msg.length := by
    simp [Opcode.asBytes, ErrorCode.asBytes]
    omega
  have h2 : List.drop 2 (Opcode.error.asBytes ++ (c.asBytes ++ (msg ++ [0]))) =
      c.asBytes ++ (msg ++ [0]) := by
    rw [show (2 : Nat) = (Opcode.error.asBytes).length from rfl]
    exact List.drop_left _ _
  have hu : toU16 (c.asBytes ++ (msg ++ [0])) = .ok c.toNat := by
    show toU16 (0 :: c.toNat :: (msg ++ [0])) = .ok c.toNat
    simp [toU16]
  have hstr : toStr (Opcode.error.asBytes ++ (c.asBytes ++ (msg ++ [0]))) 4 =
      some (.ok (msg, 4 + msg.length)) := by
    have h44 : (4 : Nat) = (Opcode.error.asBytes ++ c.asBytes).length := by
      simp [Opcode.asBytes, ErrorCode.asBytes]
    have hshape : Opcode.error.asBytes ++ (c.asBytes ++ (msg ++ [0])) =
        (Opcode.error.asBytes ++ c.asBytes) ++ (msg ++ 0 :: []) := by
      simp
    rw [hshape]
    conv_lhs => rw [h44]
    rw [toStr_at _ msg [] hm.1 hm.2]
    simp [Opcode.asBytes, ErrorCode.asBytes]
  unfold parseError sliceFrom
  rw [if_pos (by omega), h2]
  simp only []
  rw [hu]
  simp only []
  rw [errorCode_fromU16_toNat]
  simp only []
  rw [hstr]

lemma parseOack_spec (ps : List (List Nat × List Nat))
    (hwf : ∀ p ∈ ps, pairWF p) :
    parseOack (Opcode.oack.asBytes ++ encPairs ps) =
      some
        (match procPairs ps with
        | .error e => .error e
        | .ok options => .ok (.oack options)) := by
  unfold parseOack
  have h1 : (1 : Nat) = Opcode.oack.asBytes.length - 1 := by
    rw [opcode_asBytes_len]
  have hfuel : ps.length < (Opcode.oack.asBytes ++ encPairs ps).length := by
    have := encPairs_length_ge ps
    rw [List.length_append, opcode_asBytes_len]
    omega
  rw [h1, parseOptsLoop_spec ps Opcode.oack.asBytes _ hwf (by rw [opcode_asBytes_len]; omega) hfuel]
  cases procPairs ps <;> rfl

/-! ## Claim C2 — codec round trip -/

/-- C2: packet codec round-trip.  For every legal internal packet `p`
(RRQ/WRQ/DATA/ACK/ERROR/OACK with well-formed fields),
`deserialize (serialize p)` returns exactly `p`; and for every legal wire
image `b` of such a packet, the decoded packet re-serializes to exactly
`b`. -/
theorem codec_round_trip :
    (∀ p : Packet, p.legal → Packet.deserialize p.serialize = some (.ok p)) ∧
    (∀ b : List Nat, legalWire b →
      ∃ q : Packet, Packet.deserialize b = some (.ok q) ∧ q.serialize = b) := by
  have fwd : ∀ p : Packet, p.legal → Packet.deserialize p.serialize = some (.ok p) := by
    intro p hp
    cases p with
    | rrq filename mode options =>
      obtain ⟨hf, hm, ho⟩ := hp
      have hser : (Packet.rrq filename mode options).serialize =
          Opcode.rrq.asBytes ++
            (filename ++ 0 :: (mode ++ 0 :: encPairs (optPairs options))) := by
        simp only [Packet.serialize, serializeRrq, flatMap_asBytes]
        simp
      rw [hser, deserialize_dispatch]
      simp only []
      rw [parseRq_spec .rrq filename mode (optPairs options) hf hm
        (optPairs_wf options), procPairs_optPairs options ho]
    | wrq filename mode options =>
      obtain ⟨hf, hm, ho⟩ := hp
      have hser : (Packet.wrq filename mode options).serialize =
          Opcode.wrq.asBytes ++
            (filename ++ 0 :: (mode ++ 0 :: encPairs (optPairs options))) := by
        simp only [Packet.serialize, serializeWrq, flatMap_asBytes]
        simp
      rw [hser, deserialize_dispatch]
      simp only []
      rw [parseRq_spec .wrq filename mode (optPairs options) hf hm
        (optPairs_wf options), procPairs_optPairs options ho]
    | data bn payload =>
      have hser : (Packet.data bn payload).serialize =
          Opcode.data.asBytes ++ (be16 bn ++ payload) := by
        simp [Packet.serialize, serializeData]
      rw [hser, deserialize_dispatch]
      simp only []
      exact parseData_spec bn payload hp
    | ack bn =>
      have hser : (Packet.ack bn).serialize = Opcode.ack.asBytes ++ be16 bn := by
        simp [Packet.serialize, serializeAck]
      rw [hser, deserialize_dispatch]
      simp only []
      exact parseAck_spec bn hp
    | err c msg =>
      have hser : (Packet.err c msg).serialize =
          Opcode.error.asBytes ++ (c.asBytes ++ (msg ++ [0])) := by
        simp [Packet.serialize, serializeError]
      rw [hser, deserialize_dispatch]
      simp only []
      exact parseError_spec c msg hp
    | oack options =>
      have hser : (Packet.oack options).serialize =
          Opcode.oack.asBytes ++ encPairs (optPairs options) := by
        simp only [Packet.serialize, serializeOack, flatMap_asBytes]
      rw [hser, deserialize_dispatch]
      simp only []
      rw [parseOack_spec (optPairs options) (optPairs_wf options),
        procPairs_optPairs options hp]
  exact ⟨fwd, fun b hb => by
    obtain ⟨p, hp, rfl⟩ := hb
    exact ⟨p, fwd p hp, rfl⟩⟩

/-- Witness for C2 at a concrete read request with two options. -/
theorem codec_round_trip_witness :
    (Packet.rrq (strBytes "test.png") (strBytes "octet")
        [⟨.blockSize, 1468⟩, ⟨.timeout, 5⟩]).legal ∧
    Packet.deserialize
        (Packet.rrq (strBytes "test.png") (strBytes "octet")
          [⟨.blockSize, 1468⟩, ⟨.timeout, 5⟩]).serialize =
      some (.ok (Packet.rrq (strBytes "test.png") (strBytes "octet")
          [⟨.blockSize, 1468⟩, ⟨.timeout, 5⟩])) :=
  ⟨by decide, codec_round_trip.1 _ (by decide)⟩

/-! ## Claim C10 — deserializer totality -/

lemma parseRq_ne_none (buf : List Nat) (opc : Opcode) (h : 2 ≤ buf.length) :
    parseRq buf opc ≠ none := by
  unfold parseRq
  obtain ⟨r1, ht1⟩ : ∃ r1, toStr buf 2 = some r1 :=
    Option.ne_none_iff_exists'.mp (toStr_isSome buf 2 h)
  rw [ht1]
  cases r1 with
  | error e => simp
  | ok pr =>
    obtain ⟨filename, z1⟩ := pr
    have hb1 := toStr_ok_bounds buf 2 filename z1 ht1
    simp only []
    obtain ⟨r2, ht2⟩ : ∃ r2, toStr buf (z1 + 1) = some r2 :=
      Option.ne_none_iff_exists'.mp (toStr_isSome buf (z1 + 1) (by omega))
    rw [ht2]
    cases r2 with
    | error e => simp
    | ok pr2 =>
      obtain ⟨mode, z2⟩ := pr2
      have hb2 := toStr_ok_bounds buf (z1 + 1) mode z2 ht2
      simp only []
      obtain ⟨r3, ht3⟩ : ∃ r3, parseOptsLoop buf buf.length z2 = some r3 :=
        Option.ne_none_iff_exists'.mp
          (parseOptsLoop_ne_none buf buf.length z2 (by omega) (by omega))
      rw [ht3]
      cases r3 <;> cases opc <;> simp

lemma parseData_ne_none (buf : List Nat) (h : 2 ≤ buf.length) :
    parseData buf ≠ none := by
  unfold parseData sliceFrom
  rw [if_pos h]
  simp only []
  cases hu : toU16 (List.drop 2 buf) with
  | error e => simp
  | ok v =>
    have h4 := toU16_ok_len _ _ hu
    rw [List.length_drop] at h4
    rw [if_pos (by omega)]
    simp

lemma parseAck_ne_none (buf : List Nat) (h : 2 ≤ buf.length) :
    parseAck buf ≠ none := by
  unfold parseAck sliceFrom
  rw [if_pos h]
  simp only []
  cases hu : toU16 (List.drop 2 buf) <;> simp

lemma parseOack_ne_none (buf : List Nat) (h : 2 ≤ buf.length) :
    parseOack buf ≠ none := by
  unfold parseOack
  obtain ⟨r, hr⟩ : ∃ r, parseOptsLoop buf buf.length 1 = some r :=
    Option.ne_none_iff_exists'.mp
      (parseOptsLoop_ne_none buf buf.length 1 (by omega) (by omega))
  rw [hr]
  cases r <;> simp

lemma parseError_ne_none (buf : List Nat) (h : 2 ≤ buf.length) :
    parseError buf ≠ none := by
  unfold parseError sliceFrom
  rw [if_pos h]
  simp only []
  cases hu : toU16 (List.drop 2 buf) with
  | error e => simp
  | ok v =>
    have h4 := toU16_ok_len _ _ hu
    rw [List.length_drop] at h4
    cases hc : ErrorCode.fromU16 v with
    | error e => simp [hc]
    | ok code =>
      try rw [hc]
      simp only []
      obtain ⟨r, hr⟩ : ∃ r, toStr buf 4 = some r :=
        Option.ne_none_iff_exists'.mp (toStr_isSome buf 4 (by omega))
      rw [hr]
      rcases r with e | ⟨msg, i⟩ <;> simp [hc]

/-- C10: deserializer totality.  For every byte buffer of any length and
contents, `Packet::deserialize` returns a value (`Ok` packet or `Err`) and
never panics: every slice index and every `Convert` call is reached only
behind a sufficient length check (`none` in the model marks a panicking
slice or an unbounded loop, and is never the result). -/
theorem deserialize_total (buf : List Nat) :
    ∃ r, Packet.deserialize buf = some r := by
  by_cases hlen : buf.length < 2
  · refine ⟨.error "Buffer too short to serialize", ?_⟩
    unfold Packet.deserialize
    rw [if_pos hlen]
  · have h2 : 2 ≤ buf.length := by omega
    cases hu : toU16 (buf.take 2) with
    | error e =>
      refine ⟨.error e, ?_⟩
      unfold Packet.deserialize
      simp only [if_neg hlen, hu]
    | ok v =>
      cases ho : Opcode.fromU16 v with
      | error e =>
        refine ⟨.error e, ?_⟩
        unfold Packet.deserialize
        simp only [if_neg hlen, hu, ho]
      | ok opc =>
        have hd : Packet.deserialize buf =
            match opc with
            | .rrq => parseRq buf .rrq
            | .wrq => parseRq buf .wrq
            | .data => parseData buf
            | .ack => parseAck buf
            | .oack => parseOack buf
            | .error => parseError buf := by
          unfold Packet.deserialize
          simp only [if_neg hlen, hu, ho]
          cases opc <;> rfl
        rw [hd]
        cases opc
        · exact Option.ne_none_iff_exists'.mp (parseRq_ne_none buf .rrq h2)
        · exact Option.ne_none_iff_exists'.mp (parseRq_ne_none buf .wrq h2)
        · exact Option.ne_none_iff_exists'.mp (parseData_ne_none buf h2)
        · exact Option.ne_none_iff_exists'.mp (parseAck_ne_none buf h2)
        · exact Option.ne_none_iff_exists'.mp (parseError_ne_none buf h2)
        · exact Option.ne_none_iff_exists'.mp (parseOack_ne_none buf h2)

/-! ## Claim C4 — sender block-number rollover policy -/

/-- C4: for every frame transmitted the sender computes
`block_seq_tx = block_seq_win + win_idx + 1` in 16-bit arithmetic, and
exactly when that addition wraps past `0xFFFF` the configured policy
applies: `None` fails the transfer after sending
`ERROR(IllegalOperation, "Block counter rollover error")`, `Enforce0` and
`DontCare` let the counter wrap (the first post-wrap block is 0), and
`Enforce1` skips 0 so the first post-wrap block is 1. -/
theorem sender_rollover_policy (rollover : Rollover) (bsw winIdx : Nat)
    (hb : bsw < u16Mod) (hw : winIdx + 1 < u16Mod) :
    (bsw + winIdx + 1 < u16Mod →
      txBlockNum rollover bsw winIdx = .ok (bsw + winIdx + 1)) ∧
    (u16Mod ≤ bsw + winIdx + 1 →
      txBlockNum rollover bsw winIdx =
        match rollover with
        | .none => .rolloverFail
        | .enforce0 | .dontCare => .ok (bsw + winIdx + 1 - u16Mod)
        | .enforce1 => .ok (bsw + winIdx + 1 - u16Mod + 1)) ∧
    (∀ (cfg : WorkerCfg) (st : SenderSt) (lastAck : Option Nat)
        (events : List SendEvent) (fuel : Nat) (frame : List Nat),
      st.window.get? st.winIdx = some frame →
      txBlockNum cfg.rollover st.blockSeqWin st.winIdx = .rolloverFail →
      senderRun cfg (fuel + 1) true st lastAck events =
        { outcome := .failRollover,
          sent := List.replicate cfg.repeatCount rolloverErrPkt,
          timeouts := 0 }) ∧
    rolloverErrPkt = .err .illegalOperation (strBytes "Block counter rollover error") := by
  unfold u16Mod at hb hw ⊢
  refine ⟨?_, ?_, ?_, rfl⟩
  · intro h
    simp only [txBlockNum, u16Mod]
    rw [Nat.mod_eq_of_lt h, if_neg (by omega)]
  · intro h
    simp only [txBlockNum, u16Mod]
    have h1 : (bsw + winIdx + 1) % 65536 = bsw + winIdx + 1 - 65536 := by
      omega
    rw [h1, if_pos (by omega)]
  · intro cfg st lastAck events fuel frame hget htx
    simp only [senderRun, hget, htx]

/-- Witness for C4: with `Enforce1`, the first frame after `block_seq_win =
0xFFFF` is numbered 1, skipping 0. -/
theorem sender_rollover_policy_witness :
    65536 ≤ 65535 + 0 + 1 ∧
    txBlockNum .enforce1 65535 0 = .ok (65535 + 0 + 1 - u16Mod + 1) :=
  ⟨by omega,
    by rw [(sender_rollover_policy .enforce1 65535 0 (by decide) (by decide)).2.1
        (by decide)]⟩

/-! ## Claim C1 — sender ACK interpretation -/

/-- C1 (amended): after draining ACKs, for the newest received `ACK(n)` the
sender computes `diff = (n - block_seq_win) mod 2^16`, subtracting 1 when
rollover is `Enforce1` and `n` has wrapped below `block_seq_win`.  If
`diff = 0` the ACK is a duplicate (no slide).  If `0 < diff ≤ window_size`
and `diff` does not exceed the number of buffered frames, the sender sets
`block_seq_win = n`, removes the first `diff` frames, returns success when
no more file data remains and the window is empty, otherwise refills the
window when more data remains and resets `win_idx` to 0; but if `diff`
exceeds the buffered frame count, `window.remove(diff)` fails and the
transfer dies with a window-remove error.  If `diff > window_size` the ACK
is ignored. -/
theorem sender_ack_interpretation (cfg : WorkerCfg) (st : SenderSt) (n d : Nat)
    (hb : st.blockSeqWin < u16Mod) (hn : n < u16Mod)
    (hd : d = if n < st.blockSeqWin ∧ cfg.rollover = .enforce1
        then (n + u16Mod - st.blockSeqWin) % u16Mod - 1
        else (n + u16Mod - st.blockSeqWin) % u16Mod) :
    (d = 0 → ackStep cfg st n = .dup) ∧
    (0 < d → d ≤ cfg.windowSize → d ≤ st.window.length →
      ackStep cfg st n =
        if st.more = false ∧ st.window.drop d = [] then .finished
        else if st.more then
          .slide { st with blockSeqWin := n, winIdx := 0,
                           window := (fillWindow cfg.windowSize cfg.blockSize
                             (st.window.drop d) st.rest).1,
                           rest := (fillWindow cfg.windowSize cfg.blockSize
                             (st.window.drop d) st.rest).2.1,
                           more := (fillWindow cfg.windowSize cfg.blockSize
                             (st.window.drop d) st.rest).2.2 }
        else
          .slide { st with blockSeqWin := n, winIdx := 0,
                           window := st.window.drop d }) ∧
    (0 < d → d ≤ cfg.windowSize → st.window.length < d →
      ackStep cfg st n = .failRemove "amount cannot be larger than length of window") ∧
    (cfg.windowSize < d → ackStep cfg st n = .ignore) := by
  have he : ackDiff cfg.rollover st.blockSeqWin n = d := by
    rw [hd]
    rfl
  refine ⟨?_, ?_, ?_, ?_⟩
  · intro h0
    simp only [ackStep, he]
    rw [if_pos h0]
  · intro h0 hws hlen
    simp only [ackStep, he]
    rw [if_neg (by omega), if_pos hws, if_neg (by omega)]
    cases hm : st.more with
    | false =>
      by_cases hdp : st.window.drop d = []
      · simp [hdp, hm]
      · simp [hdp, hm]
    | true =>
      simp [hm, List.isEmpty_iff]
  · intro h0 hws hlen
    simp only [ackStep, he]
    rw [if_neg (by omega), if_pos hws, if_pos hlen]
  · intro hws
    simp only [ackStep, he]
    rw [if_neg (by omega), if_neg (by omega)]

/-- Witness for C1 at a sliding ACK that ends the transfer. -/
theorem sender_ack_interpretation_witness :
    ackStep ⟨512, 1, 6, .enforce0, 1⟩ ⟨0, 1, [[7]], false, [], 0⟩ 1 = .finished := by
  rw [(sender_ack_interpretation ⟨512, 1, 6, .enforce0, 1⟩ ⟨0, 1, [[7]], false, [], 0⟩
      1 1 (by decide) (by decide) (by decide)).2.1 (by decide) (by decide) (by decide)]
  decide

/-- Counterexample to C1 as stated: a reachable sender state (1-byte file,
window size 2, so the window holds a single buffered frame and no more data
remains) receiving the adversarial `ACK(2)`: `diff = 2 ≤ window_size`, but
instead of sliding and returning success the worker dies with the
`window.remove` error. -/
theorem sender_ack_interpretation_cex :
    runSender ⟨512, 2, 6, .enforce0, 1⟩ [9] [.ack 2, .wouldBlock .before] =
      { outcome := .failLocal "amount cannot be larger than length of window",
        sent := [.data 1 [9]], timeouts := 0 } ∧
    (runSender ⟨512, 2, 6, .enforce0, 1⟩ [9] [.ack 2, .wouldBlock .before]).outcome ≠
      SendOutcome.done := by
  constructor <;> decide

/-! ## Claim C3 — retry budget and cancellation -/

lemma ackStep_failRemove (cfg : WorkerCfg) (st : SenderSt) (a : Nat) (m : String)
    (h : ackStep cfg st a = .failRemove m) :
    m = "amount cannot be larger than length of window" := by
  simp only [ackStep] at h
  split_ifs at h <;> simp_all

lemma ackStep_slide_retry (cfg : WorkerCfg) (st : SenderSt) (a : Nat) (st2 : SenderSt)
    (h : ackStep cfg st a = .slide st2) : st2.retryCnt = st.retryCnt := by
  simp only [ackStep] at h
  split_ifs at h <;> simp_all
  · rw [← h]
  · rw [← h]

lemma recvDataStep_error (cfg : WorkerCfg) (st : RecvSt) (nb n : Nat)
    (payload : List Nat) (m : String)
    (h : recvDataStep cfg st nb n payload = .error m) :
    m = "cannot add to a full window" := by
  simp only [recvDataStep] at h
  split_ifs at h <;> simp_all

lemma recvDataStep_retry (cfg : WorkerCfg) (st : RecvSt) (nb n : Nat)
    (payload : List Nat) (st2 : RecvSt) (b : Bool)
    (h : recvDataStep cfg st nb n payload = .ok (st2, b)) :
    st2.retryCnt = st.retryCnt := by
  simp only [recvDataStep] at h
  split_ifs at h <;> simp_all
  · obtain ⟨h1, h2⟩ := h
    rw [← h1]
  · obtain ⟨h1, h2⟩ := h
    rw [← h1]

lemma sendBudget_cons (cfg : WorkerCfg) (retry0 : Nat) (e : SendEvent)
    (events : List SendEvent) (r : RunRes SendOutcome)
    (h : sendBudget cfg retry0 events r) : sendBudget cfg retry0 (e :: events) r :=
  ⟨h.1, h.2.1, fun c m hm => List.mem_cons_of_mem _ (h.2.2.1 c m hm), h.2.2.2⟩

lemma sendBudget_bump (cfg : WorkerCfg) (retry0 : Nat) (events : List SendEvent)
    (r : RunRes SendOutcome) (h : sendBudget cfg (retry0 + 1) events r) :
    sendBudget cfg retry0 events (RunRes.bumpTimeout r) := by
  obtain ⟨h1, h2, h3, h4⟩ := h
  refine ⟨?_, ?_, h3, h4⟩
  · show r.timeouts + 1 + retry0 ≤ cfg.maxRetries + 1
    omega
  · intro m hm
    obtain ⟨hm1, hm2⟩ := h2 m hm
    refine ⟨hm1, ?_⟩
    show r.timeouts + 1 + retry0 = cfg.maxRetries + 1
    omega

lemma sendBudget_const (cfg : WorkerCfg) (retry0 : Nat) (events : List SendEvent)
    (o : SendOutcome) (s : List Packet) (hro : retry0 ≤ cfg.maxRetries)
    (ho1 : ∀ m, o ≠ .failTimeout m) (ho2 : ∀ c m, o ≠ .failPeer c m)
    (ho3 : ∀ m, o ≠ .failLocal m) :
    sendBudget cfg retry0 events { outcome := o, sent := s, timeouts := 0 } := by
  refine ⟨?_, ?_, ?_, ?_⟩
  · show 0 + retry0 ≤ cfg.maxRetries + 1
    omega
  · intro m hm
    exact absurd hm (ho1 m)
  · intro c m hm
    exact absurd hm (ho2 c m)
  · intro m hm
    exact absurd hm (ho3 m)

lemma sendBudget_timeoutRec (cfg : WorkerCfg) (retry0 : Nat)
    (events : List SendEvent) (hrc : retry0 = cfg.maxRetries) :
    sendBudget cfg retry0 events
      { outcome := .failTimeout (timeoutMsg cfg.maxRetries), sent := [],
        timeouts := 1 } := by
  refine ⟨?_, ?_, ?_, ?_⟩
  · show 1 + retry0 ≤ cfg.maxRetries + 1
    omega
  · intro m hm
    injection hm with h1
    refine ⟨h1.symm, ?_⟩
    show 1 + retry0 = cfg.maxRetries + 1
    omega
  · intro c m hm
    exact nomatch hm
  · intro m hm
    exact nomatch hm

lemma sendBudget_peer (cfg : WorkerCfg) (retry0 : Nat) (code : ErrorCode)
    (msg : List Nat) (events : List SendEvent) (hro : retry0 ≤ cfg.maxRetries) :
    sendBudget cfg retry0 (SendEvent.errPkt code msg :: events)
      { outcome := .failPeer code msg, sent := [], timeouts := 0 } := by
  refine ⟨?_, ?_, ?_, ?_⟩
  · show 0 + retry0 ≤ cfg.maxRetries + 1
    omega
  · intro m hm
    exact nomatch hm
  · intro c m hm
    injection hm with h1 h2
    subst h1
    subst h2
    exact List.mem_cons_self _ _
  · intro m hm
    exact nomatch hm

lemma sendBudget_local (cfg : WorkerCfg) (retry0 : Nat) (events : List SendEvent)
    (m : String) (hro : retry0 ≤ cfg.maxRetries)
    (hm : m = "amount cannot be larger than length of window") :
    sendBudget cfg retry0 events
      { outcome := .failLocal m, sent := [], timeouts := 0 } := by
  refine ⟨?_, ?_, ?_, ?_⟩
  · show 0 + retry0 ≤ cfg.maxRetries + 1
    omega
  · intro m' hm'
    exact nomatch hm'
  · intro c m' hm'
    exact nomatch hm'
  · intro m' hm'
    injection hm' with h1
    rw [← h1]
    exact hm

/-- The sender's retry budget, by induction on the machine's fuel. -/
lemma senderRun_budget (cfg : WorkerCfg) (fuel : Nat) :
    ∀ (mode : Bool) (st : SenderSt) (la : Option Nat) (ev : List SendEvent),
      st.retryCnt ≤ cfg.maxRetries →
      sendBudget cfg st.retryCnt ev (senderRun cfg fuel mode st la ev) := by
  induction fuel with
  | zero =>
    intro mode st la ev hret
    exact sendBudget_const cfg st.retryCnt ev .starved [] hret
      (fun m h => nomatch h) (fun c m h => nomatch h) (fun m h => nomatch h)
  | succ fuel ih =>
    intro mode st la ev hret
    cases mode with
    | true =>
      cases hg : st.window.get? st.winIdx with
      | none =>
        simp only [senderRun, hg]
        exact ih false st none ev hret
      | some frame =>
        cases ht : txBlockNum cfg.rollover st.blockSeqWin st.winIdx with
        | rolloverFail =>
          simp only [senderRun, hg, ht]
          exact sendBudget_const cfg st.retryCnt ev .failRollover _ hret
            (fun m h => nomatch h) (fun c m h => nomatch h) (fun m h => nomatch h)
        | ok bn =>
          simp only [senderRun, hg, ht]
          exact ih false { st with winIdx := st.winIdx + 1 } none ev hret
    | false =>
      cases ev with
      | nil =>
        simp only [senderRun]
        exact sendBudget_const cfg st.retryCnt [] .starved [] hret
          (fun m h => nomatch h) (fun c m h => nomatch h) (fun m h => nomatch h)
      | cons e rest =>
        cases e with
        | ack n =>
          simp only [senderRun]
          exact sendBudget_cons cfg st.retryCnt _ rest _ (ih false st (some n) rest hret)
        | errPkt code msg =>
          simp only [senderRun]
          exact sendBudget_peer cfg st.retryCnt code msg rest hret
        | otherPkt t =>
          simp only [senderRun]
          by_cases hta : t = TimeCmp.after
          · rw [if_pos hta]
            by_cases hrc : st.retryCnt = cfg.maxRetries
            · rw [if_pos hrc]
              exact sendBudget_cons _ _ _ _ _ (sendBudget_timeoutRec cfg st.retryCnt rest hrc)
            · rw [if_neg hrc]
              exact sendBudget_cons _ _ _ _ _ (sendBudget_bump cfg st.retryCnt rest _
                (ih true { st with retryCnt := st.retryCnt + 1, winIdx := 0 } none rest
                  (by show st.retryCnt + 1 ≤ cfg.maxRetries; omega)))
          · rw [if_neg hta]
            exact sendBudget_cons _ _ _ _ _ (ih false st la rest hret)
        | reset t =>
          simp only [senderRun]
          by_cases hta : t = TimeCmp.after
          · rw [if_pos hta]
            by_cases hrc : st.retryCnt = cfg.maxRetries
            · rw [if_pos hrc]
              exact sendBudget_cons _ _ _ _ _ (sendBudget_timeoutRec cfg st.retryCnt rest hrc)
            · rw [if_neg hrc]
              exact sendBudget_cons _ _ _ _ _ (sendBudget_bump cfg st.retryCnt rest _
                (ih true { st with retryCnt := st.retryCnt + 1, winIdx := 0 } none rest
                  (by show st.retryCnt + 1 ≤ cfg.maxRetries; omega)))
          · rw [if_neg hta]
            exact sendBudget_cons _ _ _ _ _ (ih false st la rest hret)
        | ioOther t =>
          simp only [senderRun]
          by_cases hta : t = TimeCmp.after
          · rw [if_pos hta]
            by_cases hrc : st.retryCnt = cfg.maxRetries
            · rw [if_pos hrc]
              exact sendBudget_cons _ _ _ _ _ (sendBudget_timeoutRec cfg st.retryCnt rest hrc)
            · rw [if_neg hrc]
              exact sendBudget_cons _ _ _ _ _ (sendBudget_bump cfg st.retryCnt rest _
                (ih true { st with retryCnt := st.retryCnt + 1, winIdx := 0 } none rest
                  (by show st.retryCnt + 1 ≤ cfg.maxRetries; omega)))
          · rw [if_neg hta]
            exact sendBudget_cons _ _ _ _ _ (ih false st la rest hret)
        | wouldBlock t =>
          cases la with
          | none =>
            simp only [senderRun]
            by_cases hwi : st.winIdx < st.window.length ∧ t = TimeCmp.before
            · rw [if_pos hwi]
              exact sendBudget_cons _ _ _ _ _ (ih true st none rest hret)
            · rw [if_neg hwi]
              by_cases hta : t = TimeCmp.after
              · rw [if_pos hta]
                by_cases hrc : st.retryCnt = cfg.maxRetries
                · rw [if_pos hrc]
                  exact sendBudget_cons _ _ _ _ _
                    (sendBudget_timeoutRec cfg st.retryCnt rest hrc)
                · rw [if_neg hrc]
                  exact sendBudget_cons _ _ _ _ _ (sendBudget_bump cfg st.retryCnt rest _
                    (ih true { st with retryCnt := st.retryCnt + 1, winIdx := 0 } none rest
                      (by show st.retryCnt + 1 ≤ cfg.maxRetries; omega)))
              · rw [if_neg hta]
                exact sendBudget_cons _ _ _ _ _ (ih false st none rest hret)
          | some a =>
            simp only [senderRun]
            cases hA : ackStep cfg st a with
            | dup =>
              exact sendBudget_cons cfg st.retryCnt _ rest
                (senderRun cfg fuel true st none rest) (ih true st none rest hret)
            | slide st2 =>
              have hr2 : st2.retryCnt = st.retryCnt := ackStep_slide_retry cfg st a st2 hA
              have h := ih true st2 none rest (by rw [hr2]; exact hret)
              rw [hr2] at h
              exact sendBudget_cons cfg st.retryCnt _ rest
                (senderRun cfg fuel true st2 none rest) h
            | finished =>
              exact sendBudget_const cfg st.retryCnt _ .done [] hret
                (fun m h => nomatch h) (fun c m h => nomatch h) (fun m h => nomatch h)
            | failRemove m =>
              exact sendBudget_local cfg st.retryCnt _ m hret
                (ackStep_failRemove cfg st a m hA)
            | ignore =>
              by_cases hwi : st.winIdx < st.window.length ∧ t = TimeCmp.before
              · rw [if_pos hwi]
                exact sendBudget_cons _ _ _ _ _ (ih true st none rest hret)
              · rw [if_neg hwi]
                by_cases hta : t = TimeCmp.after
                · rw [if_pos hta]
                  by_cases hrc : st.retryCnt = cfg.maxRetries
                  · rw [if_pos hrc]
                    exact sendBudget_cons _ _ _ _ _
                      (sendBudget_timeoutRec cfg st.retryCnt rest hrc)
                  · rw [if_neg hrc]
                    exact sendBudget_cons _ _ _ _ _ (sendBudget_bump cfg st.retryCnt rest _
                      (ih true { st with retryCnt := st.retryCnt + 1, winIdx := 0 } none rest
                        (by show st.retryCnt + 1 ≤ cfg.maxRetries; omega)))
                · rw [if_neg hta]
                  exact sendBudget_cons _ _ _ _ _ (ih false st (some a) rest hret)

lemma recvBudget_cons (cfg : WorkerCfg) (retry0 : Nat) (e : RecvEvent)
    (events : List RecvEvent) (r : RunRes RecvOutcome)
    (h : recvBudget cfg retry0 events r) : recvBudget cfg retry0 (e :: events) r :=
  ⟨h.1, h.2.1, fun c m hm => List.mem_cons_of_mem _ (h.2.2.1 c m hm), h.2.2.2⟩

lemma recvBudget_bump (cfg : WorkerCfg) (retry0 : Nat) (events : List RecvEvent)
    (r : RunRes RecvOutcome) (h : recvBudget cfg (retry0 + 1) events r) :
    recvBudget cfg retry0 events (RunRes.bumpTimeout r) := by
  obtain ⟨h1, h2, h3, h4⟩ := h
  refine ⟨?_, ?_, h3, h4⟩
  · show r.timeouts + 1 + retry0 ≤ cfg.maxRetries + 1
    omega
  · intro m hm
    obtain ⟨hm1, hm2⟩ := h2 m hm
    refine ⟨hm1, ?_⟩
    show r.timeouts + 1 + retry0 = cfg.maxRetries + 1
    omega

lemma recvBudget_const (cfg : WorkerCfg) (retry0 : Nat) (events : List RecvEvent)
    (o : RecvOutcome) (s : List Packet) (hro : retry0 ≤ cfg.maxRetries)
    (ho1 : ∀ m, o ≠ .failTimeout m) (ho2 : ∀ c m, o ≠ .failPeer c m)
    (ho3 : ∀ m, o ≠ .failLocal m) :
    recvBudget cfg retry0 events { outcome := o, sent := s, timeouts := 0 } := by
  refine ⟨?_, ?_, ?_, ?_⟩
  · show 0 + retry0 ≤ cfg.maxRetries + 1
    omega
  · intro m hm
    exact absurd hm (ho1 m)
  · intro c m hm
    exact absurd hm (ho2 c m)
  · intro m hm
    exact absurd hm (ho3 m)

lemma recvBudget_timeoutRec (cfg : WorkerCfg) (retry0 : Nat)
    (events : List RecvEvent) (hrc : retry0 = cfg.maxRetries) :
    recvBudget cfg retry0 events
      { outcome := .failTimeout (timeoutMsg cfg.maxRetries), sent := [],
        timeouts := 1 } := by
  refine ⟨?_, ?_, ?_, ?_⟩
  · show 1 + retry0 ≤ cfg.maxRetries + 1
    omega
  · intro m hm
    injection hm with h1
    refine ⟨h1.symm, ?_⟩
    show 1 + retry0 = cfg.maxRetries + 1
    omega
  · intro c m hm
    exact nomatch hm
  · intro m hm
    exact nomatch hm

lemma recvBudget_peer (cfg : WorkerCfg) (retry0 : Nat) (code : ErrorCode)
    (msg : List Nat) (events : List RecvEvent) (hro : retry0 ≤ cfg.maxRetries) :
    recvBudget cfg retry0 (RecvEvent.errPkt code msg :: events)
      { outcome := .failPeer code msg, sent := [], timeouts := 0 } := by
  refine ⟨?_, ?_, ?_, ?_⟩
  · show 0 + retry0 ≤ cfg.maxRetries + 1
    omega
  · intro m hm
    exact nomatch hm
  · intro c m hm
    injection hm with h1 h2
    subst h1
    subst h2
    exact List.mem_cons_self _ _
  · intro m hm
    exact nomatch hm

lemma recvBudget_local (cfg : WorkerCfg) (retry0 : Nat) (events : List RecvEvent)
    (m : String) (hro : retry0 ≤ cfg.maxRetries)
    (hm : m = "cannot add to a full window") :
    recvBudget cfg retry0 events
      { outcome := .failLocal m, sent := [], timeouts := 0 } := by
  refine ⟨?_, ?_, ?_, ?_⟩
  · show 0 + retry0 ≤ cfg.maxRetries + 1
    omega
  · intro m' hm'
    exact nomatch hm'
  · intro c m' hm'
    exact nomatch hm'
  · intro m' hm'
    injection hm' with h1
    rw [← h1]
    exact hm

/-- The receiver's retry budget, by induction on the machine's fuel. -/
lemma receiverRun_budget (cfg : WorkerCfg) (fuel : Nat) :
    ∀ (flush : Bool) (st : RecvSt) (ev : List RecvEvent),
      st.retryCnt ≤ cfg.maxRetries →
      recvBudget cfg st.retryCnt ev (receiverRun cfg fuel flush st ev) := by
  induction fuel with
  | zero =>
    intro flush st ev hret
    exact recvBudget_const cfg st.retryCnt ev .starved [] hret
      (fun m h => nomatch h) (fun c m h => nomatch h) (fun m h => nomatch h)
  | succ fuel ih =>
    intro flush st ev hret
    cases flush with
    | true =>
      simp only [receiverRun]
      by_cases hl : st.lastFlag = true
      · rw [if_pos hl]
        exact recvBudget_const cfg st.retryCnt ev _ _ hret
          (fun m h => nomatch h) (fun c m h => nomatch h) (fun m h => nomatch h)
      · rw [if_neg hl]
        exact ih false { st with written := st.written ++ st.window.flatten,
                                 window := [] } ev hret
    | false =>
      cases ev with
      | nil =>
        simp only [receiverRun]
        exact recvBudget_const cfg st.retryCnt [] .starved [] hret
          (fun m h => nomatch h) (fun c m h => nomatch h) (fun m h => nomatch h)
      | cons e rest =>
        cases e with
        | data n payload =>
          simp only [receiverRun]
          cases hE : recvExpected cfg.rollover st.blockNumber n with
          | none =>
            exact recvBudget_const cfg st.retryCnt _ .failRollover _ hret
              (fun m h => nomatch h) (fun c m h => nomatch h) (fun m h => nomatch h)
          | some nb =>
            show recvBudget cfg st.retryCnt (RecvEvent.data n payload :: rest)
              (match recvDataStep cfg st nb n payload with
               | .error m =>
                 { outcome := RecvOutcome.failLocal m, sent := [], timeouts := 0 }
               | .ok (st2, sendAck) => receiverRun cfg fuel sendAck st2 rest)
            cases hD : recvDataStep cfg st nb n payload with
            | error m =>
              exact recvBudget_local cfg st.retryCnt _ m hret
                (recvDataStep_error cfg st nb n payload m hD)
            | ok pr =>
              obtain ⟨st2, sA⟩ := pr
              have hr2 : st2.retryCnt = st.retryCnt :=
                recvDataStep_retry cfg st nb n payload st2 sA hD
              have h := ih sA st2 rest (by rw [hr2]; exact hret)
              rw [hr2] at h
              exact recvBudget_cons cfg st.retryCnt _ rest
                (receiverRun cfg fuel sA st2 rest) h
        | errPkt code msg =>
          simp only [receiverRun]
          exact recvBudget_peer cfg st.retryCnt code msg rest hret
        | otherPkt =>
          simp only [receiverRun]
          exact recvBudget_cons _ _ _ _ _ (ih false st rest hret)
        | wouldBlock =>
          simp only [receiverRun]
          by_cases hla : st.listenAll = true
          · rw [if_pos hla]
            exact recvBudget_cons _ _ _ _ _
              (ih false { st with listenAll := false } rest hret)
          · rw [if_neg hla]
            by_cases hrc : st.retryCnt = cfg.maxRetries
            · rw [if_pos hrc]
              exact recvBudget_cons _ _ _ _ _
                (recvBudget_timeoutRec cfg st.retryCnt rest hrc)
            · rw [if_neg hrc]
              exact recvBudget_cons _ _ _ _ _ (recvBudget_bump cfg st.retryCnt rest _
                (ih true { st with retryCnt := st.retryCnt + 1 } rest
                  (by show st.retryCnt + 1 ≤ cfg.maxRetries; omega)))
        | reset =>
          simp only [receiverRun]
          exact recvBudget_cons _ _ _ _ _ (ih false st rest hret)
        | ioOther =>
          simp only [receiverRun]
          exact recvBudget_cons _ _ _ _ _ (ih false st rest hret)

/-- C3 (amended): the retry budget is cumulative over the whole transfer —
`retry_cnt` is never reset on progress — so a worker fires the
bottom-of-loop timeout check at most `max_retries + 1` times in total (not
per window); a timeout failure carries the message "Transfer timed out
after N tries" and occurs exactly at the `max_retries + 1`-st firing; a
failure on a received ERROR packet names an `errPkt` event actually present
in the worker's trace; and a local window-bookkeeping failure carries the
`window.remove` (sender) or `window.add` (receiver) message.  This bounds
and characterizes those failure modes without claiming they are the only
ones: the transfer can also fail on the block-counter rollover policy
(settled by the C4 theorem) or, in the code, on fatal file/socket I/O. -/
theorem worker_retry_budget (cfg : WorkerCfg) (file : List Nat)
    (sev : List SendEvent) (rev : List RecvEvent) :
    ((runSender cfg file sev).timeouts ≤ cfg.maxRetries + 1 ∧
     (∀ m, (runSender cfg file sev).outcome = .failTimeout m →
       m = timeoutMsg cfg.maxRetries ∧
       (runSender cfg file sev).timeouts = cfg.maxRetries + 1) ∧
     (∀ c m, (runSender cfg file sev).outcome = .failPeer c m →
       SendEvent.errPkt c m ∈ sev) ∧
     (∀ m, (runSender cfg file sev).outcome = .failLocal m →
       m = "amount cannot be larger than length of window")) ∧
    ((runReceiver cfg rev).timeouts ≤ cfg.maxRetries + 1 ∧
     (∀ m, (runReceiver cfg rev).outcome = .failTimeout m →
       m = timeoutMsg cfg.maxRetries ∧
       (runReceiver cfg rev).timeouts = cfg.maxRetries + 1) ∧
     (∀ c m, (runReceiver cfg rev).outcome = .failPeer c m →
       RecvEvent.errPkt c m ∈ rev) ∧
     (∀ m, (runReceiver cfg rev).outcome = .failLocal m →
       m = "cannot add to a full window")) := by
  have hs := senderRun_budget cfg (2 * sev.length + 4) true (senderInit cfg file)
    none sev (Nat.zero_le _)
  have hr := receiverRun_budget cfg (2 * rev.length + 4) false
    { blockNumber := 0, window := [], written := [], retryCnt := 0,
      lastFlag := false, listenAll := false } rev (Nat.zero_le _)
  obtain ⟨s1, s2, s3, s4⟩ := hs
  obtain ⟨r1, r2, r3, r4⟩ := hr
  refine ⟨⟨?_, ?_, s3, s4⟩, ?_, ?_, r3, r4⟩
  · show (runSender cfg file sev).timeouts + 0 ≤ cfg.maxRetries + 1
    exact s1
  · intro m hm
    obtain ⟨h1, h2⟩ := s2 m hm
    refine ⟨h1, ?_⟩
    have : (runSender cfg file sev).timeouts + 0 = cfg.maxRetries + 1 := h2
    omega
  · show (runReceiver cfg rev).timeouts + 0 ≤ cfg.maxRetries + 1
    exact r1
  · intro m hm
    obtain ⟨h1, h2⟩ := r2 m hm
    refine ⟨h1, ?_⟩
    have : (runReceiver cfg rev).timeouts + 0 = cfg.maxRetries + 1 := h2
    omega

/-- Counterexample to C3 as stated: a sender run whose timeouts are not
consecutive — each expiry is separated from the next by a new cumulative
ACK that slides the window (so no two adjacent trace events expire, and
five distinct DATA blocks go out) — still dies with "Transfer timed out
after 2 tries" on the third firing, because `retry_cnt` is cumulative and
never reset on progress. -/
theorem worker_retry_budget_cex :
    runSender ⟨1, 1, 2, .enforce0, 1⟩ [9, 9, 9, 9]
        [.wouldBlock .after, .ack 1, .wouldBlock .before, .wouldBlock .after,
         .ack 2, .wouldBlock .before, .wouldBlock .after] =
      { outcome := .failTimeout (timeoutMsg 2),
        sent := [.data 1 [9], .data 1 [9], .data 2 [9], .data 2 [9], .data 3 [9]],
        timeouts := 3 } ∧
    ([SendEvent.wouldBlock .after, .ack 1, .wouldBlock .before, .wouldBlock .after,
      .ack 2, .wouldBlock .before, .wouldBlock .after].zip
        [SendEvent.ack 1, .wouldBlock .before, .wouldBlock .after,
         .ack 2, .wouldBlock .before, .wouldBlock .after]).all
      (fun p => !(expiredAt p.1 && expiredAt p.2)) = true := by
  constructor <;> decide

/-! ## Claim C6 — transfer-size mismatch handling -/

/-- In a receiver run that ends in `Ok(size)` every packet put on the wire
is an ACK: the ERROR-free failure mode of the size check is visible in the
trace itself. -/
lemma receiverRun_sent_acks (cfg : WorkerCfg) (fuel : Nat) :
    ∀ (flush : Bool) (st : RecvSt) (ev : List RecvEvent) (size : Nat),
      (receiverRun cfg fuel flush st ev).outcome = .done size →
      ∀ p ∈ (receiverRun cfg fuel flush st ev).sent, ∃ bn, p = Packet.ack bn := by
  induction fuel with
  | zero =>
    intro flush st ev size ho
    exact nomatch ho
  | succ fuel ih =>
    intro flush st ev size ho
    cases flush with
    | true =>
      simp only [receiverRun] at ho ⊢
      by_cases hl : st.lastFlag = true
      · rw [if_pos hl] at ho ⊢
        intro p hp
        simp only [RunRes.addSent] at hp
        rw [List.mem_append] at hp
        cases hp with
        | inl h => exact ⟨_, List.eq_of_mem_replicate h⟩
        | inr h => exact absurd h (List.not_mem_nil p)
      · rw [if_neg hl] at ho ⊢
        intro p hp
        simp only [RunRes.addSent] at hp ho
        rw [List.mem_append] at hp
        cases hp with
        | inl h => exact ⟨_, List.eq_of_mem_replicate h⟩
        | inr h => exact ih false _ ev size ho p h
    | false =>
      cases ev with
      | nil =>
        intro p hp
        exact nomatch ho
      | cons e rest =>
        cases e with
        | data n payload =>
          simp only [receiverRun] at ho ⊢
          cases hE : recvExpected cfg.rollover st.blockNumber n with
          | none =>
            rw [hE] at ho
            intro p hp
            exact nomatch ho
          | some nb =>
            rw [hE] at ho
            have ho2 : (match recvDataStep cfg st nb n payload with
               | .error m =>
                 ({ outcome := RecvOutcome.failLocal m, sent := [], timeouts := 0 } :
                   RunRes RecvOutcome)
               | .ok (st2, sendAck) =>
                 receiverRun cfg fuel sendAck st2 rest).outcome =
                RecvOutcome.done size := ho
            show ∀ p ∈ (match recvDataStep cfg st nb n payload with
               | .error m =>
                 ({ outcome := RecvOutcome.failLocal m, sent := [], timeouts := 0 } :
                   RunRes RecvOutcome)
               | .ok (st2, sendAck) =>
                 receiverRun cfg fuel sendAck st2 rest).sent, ∃ bn, p = Packet.ack bn
            cases hD : recvDataStep cfg st nb n payload with
            | error m =>
              rw [hD] at ho2
              intro p hp
              exact nomatch ho2
            | ok pr =>
              obtain ⟨st2, sA⟩ := pr
              rw [hD] at ho2
              exact ih sA st2 rest size ho2
        | errPkt code msg =>
          simp only [receiverRun] at ho
          intro p hp
          exact nomatch ho
        | otherPkt =>
          simp only [receiverRun] at ho ⊢
          exact ih false st rest size ho
        | wouldBlock =>
          simp only [receiverRun] at ho ⊢
          by_cases hla : st.listenAll = true
          · rw [if_pos hla] at ho ⊢
            exact ih false _ rest size ho
          · rw [if_neg hla] at ho ⊢
            by_cases hrc : st.retryCnt = cfg.maxRetries
            · rw [if_pos hrc] at ho
              intro p hp
              exact nomatch ho
            · rw [if_neg hrc] at ho ⊢
              intro p hp
              exact ih true _ rest size ho p hp
        | reset =>
          simp only [receiverRun] at ho ⊢
          exact ih false st rest size ho
        | ioOther =>
          simp only [receiverRun] at ho ⊢
          exact ih false st rest size ho

/-- C6 (amended): when a receiving worker completes its loop reporting
`size` and a `transfer_size` `t ≠ size` was negotiated, the `receive`
wrapper fails with the size-mismatch report, sends no ERROR packet (a
completed run put only ACKs on the wire), and does **not** delete the
file — `clean_on_error` deletion happens only on the loop's `Err` path,
which a size mismatch never takes. -/
theorem transfer_size_mismatch (cleanOnError : Bool) (t : Nat) (cfg : WorkerCfg)
    (rev : List RecvEvent) (size : Nat)
    (ho : (runReceiver cfg rev).outcome = .done size) :
    (t ≠ size →
      workerReceive cleanOnError (some t) (runReceiver cfg rev) =
        { ok := false, deleted := false, sizeMismatch := true }) ∧
    (∀ p ∈ (runReceiver cfg rev).sent, ∃ bn, p = Packet.ack bn) := by
  constructor
  · intro hne
    simp only [workerReceive, ho]
    rw [if_pos hne]
  · exact receiverRun_sent_acks cfg _ false _ rev size ho

/-- Witness for C6: a one-DATA write of 1 byte against a negotiated
transfer size of 5 fails with the mismatch report. -/
theorem transfer_size_mismatch_witness :
    workerReceive true (some 5) (runReceiver ⟨2, 1, 6, .enforce0, 1⟩ [.data 1 [7]]) =
      { ok := false, deleted := false, sizeMismatch := true } :=
  (transfer_size_mismatch true 5 ⟨2, 1, 6, .enforce0, 1⟩ [.data 1 [7]] 1
    (by decide)).1 (by decide)

/-- Counterexample to C6 as stated: on a size mismatch with
`clean_on_error = true` the wrapper reports the mismatch but the partial
file is **not** deleted (deletion lives only on the `Err` branch). -/
theorem transfer_size_mismatch_cex :
    (workerReceive true (some 5)
      (runReceiver ⟨2, 1, 6, .enforce0, 1⟩ [.data 1 [7]])).sizeMismatch = true ∧
    (workerReceive true (some 5)
      (runReceiver ⟨2, 1, 6, .enforce0, 1⟩ [.data 1 [7]])).deleted = false := by
  constructor <;> decide

/-! ## Claim C7 — decoder option-value tolerance -/

/-- C7 (amended): deserializing an RRQ/WRQ whose option region encodes the
well-formed pairs `ps` (names restricted to ASCII bytes, where the ASCII
lower-casing model coincides with `str::to_lowercase`) yields exactly what
the per-pair reading `procPairs` yields: a pair with an unrecognized
*name* is skipped, but a recognized option whose *value* fails
`str::parse::<u64>` turns the whole packet into an `Err` carrying that
`ParseIntError` message ("invalid digit found in string",
"cannot parse integer from empty string" or
"number too large to fit in target type") — the packet is rejected, not
returned with the failing option dropped. -/
theorem option_value_tolerance (opc : Opcode) (filename mode : List Nat)
    (ps : List (List Nat × List Nat)) (hopc : opc = .rrq ∨ opc = .wrq)
    (hf : legalStr filename) (hm : legalStr mode) (hwf : ∀ p ∈ ps, pairWF p)
    (hascii : ∀ p ∈ ps, ∀ b ∈ p.1, b ≤ 0x7F) :
    Packet.deserialize
        (opc.asBytes ++ (filename ++ 0 :: (mode ++ 0 :: encPairs ps))) =
      some
        (match procPairs ps with
        | .error e => .error e
        | .ok options =>
          match opc with
          | .rrq => .ok (.rrq filename mode options)
          | .wrq => .ok (.wrq filename mode options)
          | _ => .error "Non request opcode") ∧
    (∀ v e, parseU64 v = .error e →
      procPairs ((OptionType.blockSize.asStr, v) :: ps) = .error e) := by
  constructor
  · rw [deserialize_dispatch]
    rcases hopc with h | h
    · subst h
      exact parseRq_spec .rrq filename mode ps hf hm hwf
    · subst h
      exact parseRq_spec .wrq filename mode ps hf hm hwf
  · intro v e hv
    simp [procPairs, fromStr_asStr, hv]

/-- Witness for C7 at an RRQ carrying `blksize` with the unparsable value
`"abc"`: the whole packet deserializes to the invalid-digit parse error. -/
theorem option_value_tolerance_witness :
    Packet.deserialize
        (Opcode.rrq.asBytes ++ (strBytes "f" ++ 0 :: (strBytes "octet" ++ 0 ::
          encPairs [(OptionType.blockSize.asStr, strBytes "abc")]))) =
      some (.error "invalid digit found in string") := by
  rw [(option_value_tolerance .rrq (strBytes "f") (strBytes "octet")
      [(OptionType.blockSize.asStr, strBytes "abc")] (Or.inl rfl)
      (by decide) (by decide) (by decide) (by decide)).1]
  decide

/-- Counterexample to C7 as stated: the same RRQ parses fine without the
bad option, but with `blksize "abc"` (invalid digit), an empty `blksize`
value, or `blksize "18446744073709551616"` (overflow) deserialization does
not drop the option and succeed — it rejects the whole packet with the
respective `ParseIntError` message. -/
theorem option_value_tolerance_cex :
    Packet.deserialize
        (Opcode.rrq.asBytes ++ (strBytes "test.txt" ++ 0 :: (strBytes "octet" ++ 0 ::
          encPairs []))) =
      some (.ok (.rrq (strBytes "test.txt") (strBytes "octet") [])) ∧
    Packet.deserialize
        (Opcode.rrq.asBytes ++ (strBytes "test.txt" ++ 0 :: (strBytes "octet" ++ 0 ::
          encPairs [(OptionType.blockSize.asStr, strBytes "abc")]))) =
      some (.error "invalid digit found in string") ∧
    Packet.deserialize
        (Opcode.rrq.asBytes ++ (strBytes "test.txt" ++ 0 :: (strBytes "octet" ++ 0 ::
          encPairs [(OptionType.blockSize.asStr, [])]))) =
      some (.error "cannot parse integer from empty string") ∧
    Packet.deserialize
        (Opcode.rrq.asBytes ++ (strBytes "test.txt" ++ 0 :: (strBytes "octet" ++ 0 ::
          encPairs [(OptionType.blockSize.asStr,
            strBytes "18446744073709551616")]))) =
      some (.error "number too large to fit in target type") := by
  refine ⟨?_, ?_, ?_, ?_⟩ <;> decide

/-! ## Claim C8 — client-side OACK application -/

lemma lastOpt_append (opts : List TransferOption) (o : TransferOption)
    (sel : OptionType → Bool) :
    lastOpt (opts ++ [o]) sel =
      if sel o.option then some o else lastOpt opts sel := by
  unfold lastOpt
  rw [List.filter_append]
  by_cases h : sel o.option
  · simp [h]
  · simp [h]

/-- C8 (amended): `Client::verify_oack` only **overwrites** — for each
negotiable field, the client ends up with the value of the last OACK
option naming that field, and with its own previously prepared value (its
offer, not the protocol default) when the OACK names it nowhere. -/
theorem oack_application (c : ClientSt) (options : List TransferOption) :
    ((c.verifyOack options).blocksize =
      match lastOpt options (fun t => t == OptionType.blockSize) with
      | some o => o.value
      | none => c.blocksize) ∧
    ((c.verifyOack options).windowSize =
      match lastOpt options (fun t => t == OptionType.windowSize) with
      | some o => o.value % u16Mod
      | none => c.windowSize) ∧
    ((c.verifyOack options).windowWaitMillis =
      match lastOpt options (fun t => t == OptionType.windowWait) with
      | some o => o.value
      | none => c.windowWaitMillis) ∧
    ((c.verifyOack options).timeoutMillis =
      match lastOpt options
          (fun t => t == OptionType.timeout || t == OptionType.timeoutMs) with
      | some o => if o.option == OptionType.timeout then 1000 * o.value else o.value
      | none => c.timeoutMillis) ∧
    ((c.verifyOack options).transferSize =
      match lastOpt options (fun t => t == OptionType.transferSize) with
      | some o => o.value
      | none => c.transferSize) := by
  induction options using List.reverseRecOn with
  | nil => exact ⟨rfl, rfl, rfl, rfl, rfl⟩
  | append_singleton opts o ih =>
    obtain ⟨ih1, ih2, ih3, ih4, ih5⟩ := ih
    have hfold : c.verifyOack (opts ++ [o]) =
        (match o.option with
         | .blockSize => { c.verifyOack opts with blocksize := o.value }
         | .windowSize => { c.verifyOack opts with windowSize := o.value % u16Mod }
         | .windowWait => { c.verifyOack opts with windowWaitMillis := o.value }
         | .timeout => { c.verifyOack opts with timeoutMillis := 1000 * o.value }
         | .timeoutMs => { c.verifyOack opts with timeoutMillis := o.value }
         | .transferSize => { c.verifyOack opts with transferSize := o.value }) := by
      unfold ClientSt.verifyOack
      rw [List.foldl_append]
      rfl
    rw [hfold]
    simp only [lastOpt_append]
    cases ho : o.option <;> simp [ho, ih1, ih2, ih3, ih4, ih5]

/-- Counterexample to C8 as stated: a client that offered `blksize 1024`
and receives an OACK not mentioning `blksize` keeps 1024 — it does not
revert to the protocol default 512. -/
theorem oack_application_cex :
    (ClientSt.verifyOack ⟨1024, 1, 0, 5000, 0⟩ []).blocksize = 1024 ∧
    (ClientSt.verifyOack ⟨1024, 1, 0, 5000, 0⟩ []).blocksize ≠ 512 := by
  constructor <;> decide

/-! ## Claim C9 — timeoutms clamping -/

/-- C9: the `timeoutms` branch of `OptionsProtocol::parse` clamps with the
RFC 2349 *seconds* bounds — any value above 255 becomes 255 milliseconds
(and is echoed back as 255), while 0 still maps to 1; 1500 does not stay
below a 255000 cap, contradicting the claimed range. -/
theorem timeoutms_clamp_bug :
    (OptionsProtocol.parse [⟨.timeoutMs, 1500⟩] .write).1.timeoutMillis = 255 ∧
    (OptionsProtocol.parse [⟨.timeoutMs, 0⟩] .write).1.timeoutMillis = 1 ∧
    (OptionsProtocol.parse [⟨.timeoutMs, 200⟩] .write).1.timeoutMillis = 200 ∧
    (OptionsProtocol.parse [⟨.timeoutMs, 1500⟩] .write).2 =
      [⟨OptionType.timeoutMs, 255⟩] := by
  refine ⟨?_, ?_, ?_, ?_⟩ <;> decide

/-! ## Claim C5 — path sanitization -/

lemma splitOn_slash_append (xs ys : List Char) :
    (xs ++ '/' :: ys).splitOn '/' = xs.splitOn '/' ++ ys.splitOn '/' := by
  simp only [List.splitOn]
  induction xs with
  | nil =>
    rw [List.nil_append, List.splitOnP_cons, if_pos (by simp), List.splitOnP_nil]
    rfl
  | cons c xs ih =>
    rw [List.cons_append, List.splitOnP_cons, List.splitOnP_cons, ih]
    by_cases hc : (c == '/') = true
    · rw [if_pos hc, if_pos hc]
      rfl
    · rw [if_neg hc, if_neg hc]
      cases hA : List.splitOnP (fun x => x == '/') xs with
      | nil => exact absurd hA (List.splitOnP_ne_nil _ xs)
      | cons a as => rfl

lemma pathParts_nil : pathParts [] = [] := by decide

lemma pathParts_sep_append (xs ys : List Char) :
    pathParts (xs ++ '/' :: ys) = pathParts xs ++ pathParts ys := by
  unfold pathParts
  rw [splitOn_slash_append, List.filter_append]

lemma pathParts_dir_slash (d : List Char) : pathParts (d ++ ['/']) = pathParts d := by
  have h := pathParts_sep_append d []
  rw [pathParts_nil, List.append_nil] at h
  exact h

lemma convertFilePath_head (filename : List Char) :
    (convertFilePath filename).head? ≠ some '/' := by
  induction filename with
  | nil => simp [convertFilePath]
  | cons c fs ih =>
    by_cases hc : c = '/' ∨ c = '\\'
    · have h : convertFilePath (c :: fs) = convertFilePath fs := by
        simp [convertFilePath, List.dropWhile_cons, hc]
      rw [h]
      exact ih
    · have h1 : c ≠ '/' := fun h => hc (Or.inl h)
      have h2 : c ≠ '\\' := fun h => hc (Or.inr h)
      simp [convertFilePath, List.dropWhile_cons, hc, h2, h1]

/-- The ancestor test of `validate_file_path` can never fail on the
dispatcher's input: the checked path is by construction the configured
directory with a (separator-free-prefixed) relative path pushed onto it. -/
lemma joinPath_ancestor (dir rel : List Char) (hrel : rel.head? ≠ some '/') :
    ancestorMatch (joinPath dir rel) dir = true := by
  unfold ancestorMatch joinPath
  by_cases h0 : dir = [] ∨ dir.getLast? = some '/'
  · rw [if_pos h0]
    rcases h0 with h | h
    · subst h
      rw [List.nil_append]
      have ha : pathIsAbs rel = false := by
        unfold pathIsAbs
        simp [hrel]
      rw [ha, pathParts_nil]
      simp [pathIsAbs, List.isPrefixOf]
    · have hne : dir ≠ [] := by
        intro h0'
        rw [h0'] at h
        simp at h
      obtain ⟨d, hd⟩ : ∃ d, dir = d ++ ['/'] := by
        refine ⟨dir.dropLast, ?_⟩
        have h2 : dir.getLast hne = '/' := by
          have h3 := List.getLast?_eq_getLast dir hne
          rw [h3] at h
          injection h with h4
        rw [← h2]
        exact (List.dropLast_append_getLast hne).symm
      subst hd
      have hfile : (d ++ ['/']) ++ rel = d ++ '/' :: rel := by simp
      rw [hfile, pathParts_sep_append d rel, pathParts_dir_slash]
      have habs : pathIsAbs (d ++ '/' :: rel) = pathIsAbs (d ++ ['/']) := by
        unfold pathIsAbs
        cases d with
        | nil => rfl
        | cons a as => rfl
      rw [habs]
      simp [List.isPrefixOf_iff_prefix]
  · rw [if_neg h0]
    push_neg at h0
    obtain ⟨h1, h2⟩ := h0
    rw [pathParts_sep_append]
    have habs : pathIsAbs (dir ++ '/' :: rel) = pathIsAbs dir := by
      unfold pathIsAbs
      cases dir with
      | nil => exact absurd rfl h1
      | cons a as => rfl
    rw [habs]
    simp [List.isPrefixOf_iff_prefix]

/-- C5 (amended): the dispatcher strips no Windows drive specifier and
canonicalizes nothing.  It strips leading `/` and `\`, maps `\` to `/`,
joins the result to the configured directory, and then rejects with
`AccessViolation` **exactly** the joined strings containing the
two-character substring `".."` — a purely textual test (so `a..b.txt` is
rejected although it stays inside the directory), while the syntactic
ancestor check never rejects a dispatcher-joined path. -/
theorem path_sanitization (existsOnDisk : Bool) (dir filename : List Char) :
    dispatcherCheck existsOnDisk dir filename =
      (if hasSub (joinPath dir (convertFilePath filename)) ['.', '.'] = true
       then ErrorCode.accessViolation
       else if existsOnDisk = false then ErrorCode.fileNotFound
       else ErrorCode.fileExists) := by
  unfold dispatcherCheck checkFileExists validateFilePath
  rw [joinPath_ancestor dir (convertFilePath filename) (convertFilePath_head filename)]
  by_cases hsub : hasSub (joinPath dir (convertFilePath filename)) ['.', '.'] = true
  · rw [if_pos hsub]
    simp [hsub]
  · rw [if_neg hsub]
    rw [Bool.not_eq_true] at hsub
    cases hex : existsOnDisk <;> simp [hsub, hex]

/-- Counterexample to C5 as stated: `convert_file_path` leaves the drive
specifier `C:` in place, and the request `a..b.txt` — which stays inside
the directory — is rejected with AccessViolation by the textual `..`
test. -/
theorem path_sanitization_cex :
    convertFilePath ("C:test.txt".toList) = "C:test.txt".toList ∧
    dispatcherCheck true ("srv".toList) ("a..b.txt".toList) =
      ErrorCode.accessViolation := by
  constructor <;> decide

end Tftpd
